import Mathlib

/-!
# A shallow embedding of the SF Municipal Code HTML chunker

This file embeds the extraction pipeline of `src/parse_sf_code.py` (class
`SFCodeParser`) in Lean 4 and proves properties about it.

Modelling conventions:
  * BeautifulSoup DOM nodes become the inductive `Node` (a tag with name,
    class list, attribute list and children) with text nodes as `Node.text`.
  * Python strings are Lean `String`s (`len` = `String.length`, both count
    code points); Python's truthiness on strings/lists is tested as
    (non-)emptiness, and a possibly-absent dict entry is an `Option`.
  * The `re` module calls are executed by a small backtracking regex engine
    (`mmatch`/`reSearch`/`reFindAll`) over pattern ASTs (`RE`); each pattern
    of the source is transcribed into one `pat_*` definition below.
  * `raise ValueError` becomes `Except.error`; the traversal is a fold in
    the `Except String` monad.
  * Debug output (prints, the statistics dict, the `unhandled_text.json`
    dump) and the wall-clock `processing_timestamp` are outside the
    embedding; `generate_doc_uuid` is imported by the source from outside
    this repository and is modelled from the spec.
-/

/-! ## Small string helpers (Python string primitives) -/

/-- Python's `\s` class over ASCII: space, tab, newline, carriage return,
vertical tab, form feed. -/
def pyIsSpace (c : Char) : Bool :=
  c = ' ' || c = '\t' || c = '\n' || c = '\r' || c = '\x0b' || c = '\x0c'

/-- Python's `\w` class over ASCII: letters, digits, underscore. -/
def pyIsWord (c : Char) : Bool :=
  c.isAlpha || c.isDigit || c = '_'

/-- Python `str.strip()` (whitespace from both ends). -/
def pyStrip (s : String) : String :=
  String.mk (((s.toList.dropWhile pyIsSpace).reverse.dropWhile pyIsSpace).reverse)

/-- `pat` occurs in `s` as a contiguous substring (Python `pat in s`). -/
def listContainsSub (pat s : List Char) : Bool :=
  match s with
  | [] => pat = []
  | _ :: rest => pat.isPrefixOf s || listContainsSub pat rest

/-- Python `pat in s` on strings. -/
def strContains (s pat : String) : Bool :=
  listContainsSub pat.toList s.toList

/-- Python truthiness of an optional string (`None` and `""` are falsy). -/
def optTruthy : Option String → Bool
  | none => false
  | some s => s ≠ ""

/-- Python `str.lower()` (ASCII; the source's data is ASCII). -/
def pyLower (s : String) : String := String.mk (s.toList.map Char.toLower)

/-- Python `str.startswith`. -/
def pyStartsWith (s pre : String) : Bool := pre.toList.isPrefixOf s.toList

/-- Python `str.endswith`. -/
def pyEndsWith (s suf : String) : Bool := suf.toList.reverse.isPrefixOf s.toList.reverse

/-- Python `str.replace` on character lists: non-overlapping occurrences,
left to right (the source only replaces non-empty patterns). -/
def pyReplaceList (pat repl : List Char) : Nat → List Char → List Char
  | _, [] => []
  | 0, s => s
  | fuel + 1, c :: rest =>
    if pat ≠ [] && pat.isPrefixOf (c :: rest) then
      repl ++ pyReplaceList pat repl fuel ((c :: rest).drop pat.length)
    else c :: pyReplaceList pat repl fuel rest

/-- Python `str.replace`. -/
def pyReplace (s pat repl : String) : String :=
  String.mk (pyReplaceList pat.toList repl.toList (s.toList.length + 1) s.toList)

/-- Python `str.split(sep)` for a non-empty separator, on character lists. -/
def pySplitList (sep : List Char) : Nat → List Char → List Char → List (List Char)
  | _, [], cur => [cur.reverse]
  | 0, s, cur => [cur.reverse ++ s]
  | fuel + 1, c :: rest, cur =>
    if sep.isPrefixOf (c :: rest) then
      cur.reverse :: pySplitList sep fuel ((c :: rest).drop sep.length) []
    else pySplitList sep fuel rest (c :: cur)

/-- Python `str.split(sep)` for a non-empty separator. -/
def pySplitOn (s sep : String) : List String :=
  (pySplitList sep.toList (s.toList.length + 1) s.toList []).map String.mk

/-! ## A backtracking regex engine

Enough of Python `re` for the patterns used by the source: literals,
character classes, `.`, greedy and lazy `*`/`+`/`?`, alternation (left
branch preferred), numbered capture groups, `^`, `$` and `\b`.  Matching is
continuation-passing with full backtracking, so greedy/lazy preferences and
group captures behave as in Python; a fuel argument (structural recursion)
bounds the search, with every `star` iteration required to consume input,
as Python's engine also stops on an empty repetition. -/

inductive RE where
  | eps
  | anyc
  | cls (neg : Bool) (f : Char → Bool)
  | seq (a b : RE)
  | alt (a b : RE)
  | star (lazyq : Bool) (a : RE)
  | group (n : Nat) (a : RE)
  | bos
  | eos
  | wordb

/-- Captures seen so far: group number paired with captured characters
(the most recent binding of a group number wins). -/
abbrev Caps := List (Nat × List Char)

def mmatch {α : Type} : Nat → RE → List Char → Option Char →
    (List Char → Option Char → Caps → Option α) → Caps → Option α
  | 0, _, _, _, _, _ => none
  | _ + 1, .eps, s, pc, k, caps => k s pc caps
  | _ + 1, .anyc, s, _, k, caps =>
    match s with
    | [] => none
    | c :: rest => if c = '\n' then none else k rest (some c) caps
  | _ + 1, .cls neg f, s, _, k, caps =>
    match s with
    | [] => none
    | c :: rest => if f c ≠ neg then k rest (some c) caps else none
  | fuel + 1, .seq a b, s, pc, k, caps =>
    mmatch fuel a s pc (fun s' pc' caps' => mmatch fuel b s' pc' k caps') caps
  | fuel + 1, .alt a b, s, pc, k, caps =>
    match mmatch fuel a s pc k caps with
    | some r => some r
    | none => mmatch fuel b s pc k caps
  | fuel + 1, .star lazyq a, s, pc, k, caps =>
    let again := fun s' pc' caps' =>
      if s'.length < s.length then mmatch fuel (.star lazyq a) s' pc' k caps' else none
    if lazyq then
      match k s pc caps with
      | some r => some r
      | none => mmatch fuel a s pc again caps
    else
      match mmatch fuel a s pc again caps with
      | some r => some r
      | none => k s pc caps
  | fuel + 1, .group n a, s, pc, k, caps =>
    mmatch fuel a s pc
      (fun s' pc' caps' => k s' pc' ((n, s.take (s.length - s'.length)) :: caps')) caps
  | _ + 1, .bos, s, pc, k, caps => if pc = none then k s pc caps else none
  | _ + 1, .eos, s, pc, k, caps => if s = [] || s = ['\n'] then k s pc caps else none
  | _ + 1, .wordb, s, pc, k, caps =>
    let pw := match pc with | none => false | some c => pyIsWord c
    let nw := match s with | [] => false | c :: _ => pyIsWord c
    if pw ≠ nw then k s pc caps else none

def RE.size : RE → Nat
  | .eps | .anyc | .cls _ _ | .bos | .eos | .wordb => 1
  | .seq a b | .alt a b => a.size + b.size + 1
  | .star _ a | .group _ a => a.size + 1

/-- Fuel that is ample for `mmatch`: nesting depth is bounded by the pattern
size plus one unfolding per consumed character for each `star`. -/
def reFuel (r : RE) (s : List Char) : Nat := (r.size + 2) * (s.length + 2)

/-- Python `re.search`: try a match at each position, leftmost first.  Returns
the captures (group 0 is the whole match) and the input remaining after the
match.  The previous character is threaded for `^` and `\b`. -/
def reSearchAux (r : RE) : Option Char → List Char → Option (Caps × List Char)
  | pc, s =>
    match mmatch (reFuel r s) (.group 0 r) s pc (fun s' _ caps => some (caps, s')) [] with
    | some res => some res
    | none =>
      match s with
      | [] => none
      | c :: rest => reSearchAux r (some c) rest

def capGet (caps : Caps) (n : Nat) : Option String :=
  (caps.find? (fun p => p.1 = n)).map (fun p => String.mk p.2)

/-- `re.search(r, s)` returning the captures of the match, if any. -/
def reSearch (r : RE) (s : String) : Option Caps :=
  (reSearchAux r none s.toList).map Prod.fst

/-- `re.match(r, s)`: a match anchored at the start of the string. -/
def reMatchStart (r : RE) (s : String) : Option Caps :=
  (mmatch (reFuel r s.toList) (.group 0 r) s.toList none
    (fun s' _ caps => some (caps, s')) []).map Prod.fst

def reFindAllAux : Nat → RE → Option Char → List Char → List String
  | 0, _, _, _ => []
  | fuel + 1, r, pc, s =>
    match reSearchAux r pc s with
    | none => []
    | some (caps, rest) =>
      let m0 := ((caps.find? (fun p => p.1 = 0)).map Prod.snd).getD []
      let g1 := (capGet caps 1).getD ""
      match m0 with
      | [] =>
        g1 :: (match rest with
               | [] => []
               | c :: rs => reFindAllAux fuel r (some c) rs)
      | _ => g1 :: reFindAllAux fuel r m0.getLast? rest

/-- `re.findall(r, s)` for a pattern with one capture group: the list of the
group's captures, scanning left to right, resuming after each match. -/
def reFindAll (r : RE) (s : String) : List String :=
  reFindAllAux (s.toList.length + 1) r none s.toList

/-! Pattern constructors. `IGNORECASE` patterns are built from the
case-insensitive constructors. -/

/-- The single-quote character (`'`). -/
def squote : Char := Char.ofNat 39

def reLit (c : Char) : RE := .cls false (fun x => x = c)
def reLitCI (c : Char) : RE := .cls false (fun x => x.toLower = c.toLower)
def reStr (s : String) : RE := s.toList.foldr (fun c r => .seq (reLit c) r) .eps
def reStrCI (s : String) : RE := s.toList.foldr (fun c r => .seq (reLitCI c) r) .eps
def rePlus (r : RE) : RE := .seq r (.star false r)
def reOpt (r : RE) : RE := .alt r .eps
def reDigit : RE := .cls false Char.isDigit
def reSpace : RE := .cls false pyIsSpace

/-! ## The regular expressions of `parse_sf_code.py` -/

/-- `pathname: '([^']+)'` (from `parse_internal_link`). -/
def pat_pathname : RE :=
  .seq (reStr "pathname: ") (.seq (reLit squote)
    (.seq (.group 1 (rePlus (.cls true (fun c => c = squote)))) (reLit squote)))

/-- `hash: '(#[^']+)'` (from `parse_internal_link`). -/
def pat_hash : RE :=
  .seq (reStr "hash: ") (.seq (reLit squote)
    (.seq (.group 1 (.seq (reLit '#') (rePlus (.cls true (fun c => c = squote)))))
      (reLit squote)))

/-- `hash: '#(JD_[^']+)'` (from `parse_internal_hierarchy_ref`). -/
def pat_jd_hash : RE :=
  .seq (reStr "hash: ") (.seq (reLit squote) (.seq (reLit '#')
    (.seq (.group 1 (.seq (reStr "JD_") (rePlus (.cls true (fun c => c = squote)))))
      (reLit squote))))

/-- `Article([IVXLCDM]+|[\d\w-]+)` (from `parse_internal_hierarchy_ref`,
used with `re.match`, case-sensitive). -/
def pat_article_ref : RE :=
  .seq (reStr "Article")
    (.group 1 (.alt (rePlus (.cls false (fun c => c ∈ ['I','V','X','L','C','D','M'])))
      (rePlus (.cls false (fun c => c.isDigit || pyIsWord c || c = '-')))))

/-- `^A\d` (from `parse_internal_hierarchy_ref`, used with `re.match`). -/
def pat_appendix_sec : RE := .seq .bos (.seq (reLit 'A') reDigit)

/-- `^\d` (from `parse_internal_hierarchy_ref`, used with `re.match`). -/
def pat_bare_sec : RE := .seq .bos reDigit

/-- `Added by\s+(.*?)(?:;|$)` with `IGNORECASE` (from `div_history_extract`). -/
def pat_added : RE :=
  .seq (reStrCI "Added by") (.seq (rePlus reSpace)
    (.seq (.group 1 (.star true .anyc)) (.alt (reLit ';') .eos)))

/-- `Amended by\s+(.*?)(?:;|$)` with `IGNORECASE` (from `div_history_extract`). -/
def pat_amended : RE :=
  .seq (reStrCI "Amended by") (.seq (rePlus reSpace)
    (.seq (.group 1 (.star true .anyc)) (.alt (reLit ';') .eos)))

/-- `Ord\.?\s*([^;\s,)]+)` used with `findall` (from `div_history_extract`). -/
def pat_ord : RE :=
  .seq (reStr "Ord") (.seq (reOpt (reLit '.')) (.seq (.star false reSpace)
    (.group 1 (rePlus (.cls true (fun c => c = ';' || pyIsSpace c || c = ',' || c = ')'))))))

/-- `see\s+([^;)]+)` with `IGNORECASE`, used with `findall`
(from `div_history_extract`). -/
def pat_see : RE :=
  .seq (reStrCI "see") (.seq (rePlus reSpace)
    (.group 1 (rePlus (.cls true (fun c => c = ';' || c = ')')))))

/-- `SEC\.\s*(\d+\.?\d*)` with `IGNORECASE` (the `section_number` extractor in
`hierarchy_tags`). -/
def pat_sec_number : RE :=
  .seq (reStrCI "SEC") (.seq (reLit '.') (.seq (.star false reSpace)
    (.group 1 (.seq (rePlus reDigit) (.seq (reOpt (reLit '.')) (.star false reDigit))))))

/-- `^(ARTICLE\s+)?(\d+[A-Z]?-?\d*\.?|\b[IVXLCDM]+\b)[:.]?\s+(.+)` with
`IGNORECASE` (the `article_number` extractor in `hierarchy_tags`).
With `IGNORECASE`, `[A-Z]` matches any ASCII letter and the Roman-numeral
class matches both cases. -/
def pat_article_number : RE :=
  .seq .bos
    (.seq (reOpt (.group 1 (.seq (reStrCI "ARTICLE") (rePlus reSpace))))
      (.seq (.group 2 (.alt
          (.seq (rePlus reDigit)
            (.seq (reOpt (.cls false Char.isAlpha))
              (.seq (reOpt (reLit '-'))
                (.seq (.star false reDigit) (reOpt (reLit '.'))))))
          (.seq .wordb
            (.seq (rePlus (.cls false (fun c =>
                c.toUpper ∈ ['I','V','X','L','C','D','M']))) .wordb))))
        (.seq (reOpt (.cls false (fun c => c = ':' || c = '.')))
          (.seq (rePlus reSpace) (.group 3 (rePlus .anyc))))))

/-! ## The DOM model

BeautifulSoup's parsed tree becomes `Node`: an element node carries the tag
name, the class list (`class` attribute split on whitespace, as soup exposes
it), the remaining attributes as an association list, and the children; a
text node carries its string.  `Node`/`NodeList` are mutually inductive so
that all traversals are structural recursions that the kernel can evaluate. -/

mutual
inductive Node where
  | text : String → Node
  | elem : String → List String → List (String × String) → NodeList → Node
deriving Repr, DecidableEq
inductive NodeList where
  | nil : NodeList
  | cons : Node → NodeList → NodeList
deriving Repr, DecidableEq
end

def NodeList.ofList : List Node → NodeList
  | [] => .nil
  | n :: rest => .cons n (NodeList.ofList rest)

def NodeList.toList : NodeList → List Node
  | .nil => []
  | .cons n rest => n :: rest.toList

/-- Tag name of a node (`""` for a text node). -/
def Node.nname : Node → String
  | .text _ => ""
  | .elem nm _ _ _ => nm

/-- Class list of a node (`element.get('class', [])`). -/
def Node.classes : Node → List String
  | .text _ => []
  | .elem _ cls _ _ => cls

/-- Attribute lookup with default `""` (`element.get(key, '')`). -/
def Node.attr : Node → String → String
  | .text _, _ => ""
  | .elem _ _ attrs _, key => ((attrs.find? (fun p => p.1 = key)).map Prod.snd).getD ""

def Node.childList : Node → List Node
  | .text _ => []
  | .elem _ _ _ cs => cs.toList

mutual
/-- All descendants of a node, in document (pre-)order, the node itself
excluded — the order `element.descendants` and `find_all` use. -/
def Node.descendants : Node → List Node
  | .text _ => []
  | .elem _ _ _ cs => NodeList.descList cs
def NodeList.descList : NodeList → List Node
  | .nil => []
  | .cons n rest => n :: Node.descendants n ++ NodeList.descList rest
end

/-- `find_all(pred)` on a node: matching element descendants in document
order (text nodes never match a tag filter). -/
def Node.findAll (n : Node) (pred : Node → Bool) : List Node :=
  n.descendants.filter (fun d => match d with
    | .text _ => false
    | e => pred e)

/-- First match of `find_all`, i.e. soup's `find`. -/
def Node.findFirst (n : Node) (pred : Node → Bool) : Option Node :=
  (n.findAll pred).head?

/-- `get_text(strip=True)`: every descendant text string stripped and
concatenated (BeautifulSoup joins the stripped strings with no separator). -/
def Node.getTextStrip (n : Node) : String :=
  String.join ((n.descendants.filterMap (fun d => match d with
    | .text s => some (pyStrip s)
    | _ => none)))

/-- Direct children that are `div` elements (`find_all('div', recursive=False)`). -/
def Node.directChildDivs (n : Node) : List Node :=
  n.childList.filter (fun c => c.nname = "div")

/-- The node has an `annotationdrawer` descendant (`find('annotationdrawer')`). -/
def Node.hasAnnotDrawer (n : Node) : Bool :=
  (n.findFirst (fun d => d.nname = "annotationdrawer")).isSome

/-! ## `extract_text_from_element`

The source walks `element.descendants`; for each text node it climbs the
parent chain up to (but excluding) the element, computing three flags with
early exits, and for each element node (to inline `img`/external-link URLs)
it climbs the chain with a simpler check.  Here the chain of strict
ancestors (innermost first, as `(name, classes)` pairs) is passed down the
recursion instead. -/

/-- The flag computation of the text-node loop (lines 55–68 of the source):
walking outward, an `annotationdrawer` ancestor sets the annotation flag and
stops; an `EdNote` class sets the editor-note flag and stops (recording
whether that same ancestor is also `rbox`); an `rbox` class sets the
nested-rbox flag and continues.  Returns (annotation, nestedRbox, edNote). -/
def textFlags : List (String × List String) → Bool × Bool × Bool
  | [] => (false, false, false)
  | (nm, cls) :: rest =>
    if nm = "annotationdrawer" then (true, false, false)
    else if "EdNote" ∈ cls then (false, "rbox" ∈ cls, true)
    else
      let (a, r, e) := textFlags rest
      (a, r || "rbox" ∈ cls, e)

/-- Text is included iff it is not inside an annotation drawer and either not
in a nested rbox or inside an editor note (line 71). -/
def textIncluded (chain : List (String × List String)) : Bool :=
  let (a, r, e) := textFlags chain
  !a && (!r || e)

/-- The element-node chain check (lines 79–91): skip when inside an
`annotationdrawer` or a nested `rbox`. -/
def elemSkipped : List (String × List String) → Bool
  | [] => false
  | (nm, cls) :: rest =>
    if nm = "annotationdrawer" then true
    else if "rbox" ∈ cls then true
    else elemSkipped rest

mutual
/-- One descendant's contribution to the extracted text: stripped text with a
trailing space when included; bracketed `src`/`href` for `img` and `a.Web`
elements (lines 96–106), then the contributions of the children. -/
def extractVisit (chain : List (String × List String)) : Node → String
  | .text s =>
    let t := pyStrip s
    if t ≠ "" && textIncluded chain then t ++ " " else ""
  | .elem nm cls attrs cs =>
    let urlPart :=
      if elemSkipped chain then ""
      else if nm = "img" then
        let src := ((attrs.find? (fun p => p.1 = "src")).map Prod.snd).getD ""
        if src ≠ "" then "[" ++ src ++ "] " else ""
      else if nm = "a" && "Web" ∈ cls then
        let href := ((attrs.find? (fun p => p.1 = "href")).map Prod.snd).getD ""
        if href ≠ "" then "[" ++ href ++ "] " else ""
      else ""
    urlPart ++ extractVisitList ((nm, cls) :: chain) cs
def extractVisitList (chain : List (String × List String)) : NodeList → String
  | .nil => ""
  | .cons n rest => extractVisit chain n ++ extractVisitList chain rest
end

/-- `extract_text_from_element` (lines 39–108).  A text node has no
descendants, so it yields `""` (the function is only ever applied to the
element nodes `find_all` returned). -/
def extract_text_from_element (element : Node) : String :=
  pyStrip (extractVisitList [] (match element with
    | .text _ => .nil
    | .elem _ _ _ cs => cs))

/-! ## The data model of the parser state -/

/-- An external link entry `{'href': .., 'text': ..}`. -/
structure ExtLink where
  href : String
  textv : String
deriving Repr, DecidableEq

/-- An intercode link entry `{'destination_id': .., 'text': ..}`. -/
structure InterLink where
  destination_id : String
  textv : String
deriving Repr, DecidableEq

/-- An image link entry `{'src': .., 'alt': .., 'width': .., 'height': ..}`. -/
structure ImgLink where
  src : String
  alt : String
  width : String
  height : String
deriving Repr, DecidableEq

/-- The `all_links` bucket. -/
structure LinkBuckets where
  internal_links : List String
  external_links : List ExtLink
  intercode_links : List InterLink
  image_links : List ImgLink
deriving Repr, DecidableEq

def emptyLinks : LinkBuckets := ⟨[], [], [], []⟩

/-- The `history_data` bucket. -/
structure HistoryData where
  added_by : List String
  amended_by : List String
  see_also : List String
deriving Repr, DecidableEq

def emptyHistory : HistoryData := ⟨[], [], []⟩

/-- A resolved internal-link reference (`_process_internal_links`).
`reference_string` and `record_id` can be Python `None`. -/
structure Reference where
  hash : String
  reference_string : Option String
  record_id : Option String
deriving Repr, DecidableEq

/-- One entry of `html_tags` (the `tag_info` dicts).  `line_number` is
`getattr(element, 'sourceline', None)`; the embedded DOM carries no source
lines, so it is always `none` here. -/
structure TagInfo where
  tag : String
  classes : List String
  id : String
  text_length : Nat
  line_number : Option Nat
deriving Repr, DecidableEq

/-- The `current_metadata` dict (initialised at lines 318–335).  Hierarchy
fields hold `none` for Python `None`; `chunk_index` is an `Option` so that a
*missing* key (the fatal condition `_save_chunk` checks) is representable.
The `*_anchor` keys are added to the dict only by structural extraction, so
they are `Option`s that start absent. -/
structure Metadata where
  chapter : Option String := none
  article : Option String := none
  article_number : Option String := none
  article_title : Option String := none
  division : Option String := none
  section_id : Option String := none
  section_number : Option String := none
  section_title : Option String := none
  subsection : Option String := none
  chunk_index : Option Nat := some 1
  div_classes : List String := []
  all_links : LinkBuckets := emptyLinks
  history_data : HistoryData := emptyHistory
  references : List Reference := []
  new_ordinance_links : List String := []
  html_tags : List TagInfo := []
  hash : Option String := none
  chapter_anchor : Option String := none
  article_anchor : Option String := none
  division_anchor : Option String := none
  section_anchor : Option String := none
  subsection_anchor : Option String := none
deriving Repr, DecidableEq

/-- The fresh metadata dict of `parse` (lines 318–335). -/
def initialMetadata : Metadata := {}

/-- The hard-coded `static_metadata` (lines 311–315). -/
structure StaticMetadata where
  source_url : String
  download_date : String
  city : String
deriving Repr, DecidableEq

def static_metadata : StaticMetadata :=
  ⟨"https://codelibrary.amlegal.com/codes/san_francisco/latest/overview",
   "2024-06-30", "San Francisco"⟩

/-- An emitted chunk (the dict built in `_save_chunk`): the full metadata
snapshot (`**metadata`), the static metadata (`**static_metadata`) and the
derived fields.  `processing_timestamp` (wall clock) is outside the
embedding. -/
structure Chunk where
  metadata : Metadata
  content : String
  doc_id : String
  chunk_id : String
  chunk_index : Nat
  chunk_number : Nat
  title : String
  uuid : String
  static : StaticMetadata
  character_count : Nat
deriving Repr, DecidableEq

/-- The parser-object state `add_text_to_current_chunk`/`_save_chunk` touch:
`self.max_chunk_size`, `self.chunks`, `self.chunk_number`. -/
structure ParserState where
  max_chunk_size : Nat
  chunks : List Chunk
  chunk_number : Nat
deriving Repr, DecidableEq

/-! ## The hierarchy configuration (lines 341–377) -/

/-- One entry of `hierarchy_tags`.  The declarative `extractors` dicts of the
source hold a regex for `article_number` (with a lambda for `article_title`)
and a regex for `section_number`; `_extract_structural_data` hard-codes how
each of those two is applied, so the extractors are identified here by the
entry's `tag` (see `extract_structural_data`). -/
structure HierarchyTag where
  tag : String
  type : String
  fields : List String
deriving Repr, DecidableEq

def hierarchy_tags : List HierarchyTag :=
  [⟨"Chapter", "Chapter", ["chapter"]⟩,
   ⟨"Article", "Article", ["article", "article_number", "article_title"]⟩,
   ⟨"Division", "Division", ["division"]⟩,
   ⟨"Section", "Section", ["section_title", "section_number"]⟩,
   ⟨"Subsection", "Subsection", ["subsection"]⟩]

/-- `is_structural_element` (lines 185–192): the first hierarchy entry whose
`tag` keyword occurs as a substring of one of the element's classes. -/
def is_structural_element (element : Node) (tags : List HierarchyTag) :
    Option HierarchyTag :=
  tags.find? (fun hier => element.classes.any (fun cls => strContains cls hier.tag))

/-- Writing `metadata[field] = None` for a hierarchy-owned field name
(the inner loop of `_reset_metadata_for_new_section`). -/
def set_field_none (m : Metadata) (f : String) : Metadata :=
  if f = "chapter" then { m with chapter := none }
  else if f = "article" then { m with article := none }
  else if f = "article_number" then { m with article_number := none }
  else if f = "article_title" then { m with article_title := none }
  else if f = "division" then { m with division := none }
  else if f = "section_title" then { m with section_title := none }
  else if f = "section_number" then { m with section_number := none }
  else if f = "subsection" then { m with subsection := none }
  else m

/-- Reading `metadata[field]` for a hierarchy-owned field name (used to state
the reset invariant). -/
def get_hier_field (m : Metadata) (f : String) : Option String :=
  if f = "chapter" then m.chapter
  else if f = "article" then m.article
  else if f = "article_number" then m.article_number
  else if f = "article_title" then m.article_title
  else if f = "division" then m.division
  else if f = "section_title" then m.section_title
  else if f = "section_number" then m.section_number
  else if f = "subsection" then m.subsection
  else none

/-- `_reset_metadata_for_new_section` (lines 265–281): reset the accumulating
fields, set `chunk_index` back to 1, and set every field owned by hierarchy
levels at index ≥ `current_level_index` to `None`. -/
def reset_metadata_for_new_section (metadata : Metadata)
    (current_level_index : Nat) : Metadata :=
  let m := { metadata with
    all_links := emptyLinks
    history_data := emptyHistory
    references := []
    new_ordinance_links := []
    hash := none
    chunk_index := some 1
    div_classes := []
    html_tags := [] }
  (hierarchy_tags.drop current_level_index).foldl
    (fun m hier => hier.fields.foldl set_field_none m) m

/-! ## Chunk emission and text accumulation -/

/-- Modelled from the spec: `generate_doc_uuid` is imported by the source
from the external `congressionalrag` helpers, whose code is not among this
repository's files.  Spec §3: a chunk carries "a stable content hash/UUID
derived deterministically from the document id" — so it is modelled as a
deterministic function of `doc_id` alone. -/
def generate_doc_uuid (doc_id : String) : String := "uuid:" ++ doc_id

/-- `should_create_new_chunk` (lines 145–147): `len(current_text + new_text)
> self.max_chunk_size`. -/
def should_create_new_chunk (max_chunk_size : Nat) (current_text new_text : String) : Bool :=
  (current_text ++ new_text).length > max_chunk_size

/-- `.lower().replace(' ', '_').replace(':', '')` (lines 781, 783). -/
def slugify (s : String) : String :=
  pyReplace (pyReplace (pyLower s) " " "_") ":" ""

/-- A truthy optional string as a singleton list (Python appends the value
under `if metadata[k]:`). -/
def truthyList : Option String → List String
  | none => []
  | some s => if s ≠ "" then [s] else []

/-- The `doc_id` built in `_save_chunk` (lines 779–787): `sf_municipal_code`
joined with the slugs of truthy `chapter` and `article` and the raw
`section_id`. -/
def compute_doc_id (metadata : Metadata) : String :=
  String.intercalate "_"
    (["sf_municipal_code"] ++ (truthyList metadata.chapter).map slugify
      ++ (truthyList metadata.article).map slugify ++ truthyList metadata.section_id)

/-- The `title` built in `_save_chunk` (lines 767–776). -/
def compute_title (metadata : Metadata) : String :=
  let title_parts := truthyList metadata.chapter ++ truthyList metadata.article
    ++ truthyList metadata.division
  if title_parts = [] then "San Francisco Municipal Code Section"
  else String.intercalate " - " title_parts

/-- `_save_chunk` (lines 764–812): build the chunk dict and append it, after
the fatal check that `chunk_index` is present; on the missing key the source
raises `ValueError` (here `Except.error`) and nothing is appended. -/
def save_chunk (st : ParserState) (text : String) (metadata : Metadata)
    (static : StaticMetadata) : Except String ParserState :=
  let title := compute_title metadata
  let doc_id := compute_doc_id metadata
  let doc_uuid := generate_doc_uuid doc_id
  match metadata.chunk_index with
  | none => .error ("chunk_index missing from metadata for doc_id: " ++ doc_id)
  | some ci =>
    let chunk : Chunk :=
      { metadata := metadata
        content := text
        doc_id := doc_id
        chunk_id := doc_id ++ "_" ++ toString ci
        chunk_index := ci
        chunk_number := st.chunk_number
        title := title
        uuid := doc_uuid
        static := static
        character_count := text.length }
    .ok { st with chunks := st.chunks ++ [chunk], chunk_number := st.chunk_number + 1 }

/-- `add_text_to_current_chunk` (lines 110–143).  Returns the updated parser
state, the updated metadata dict (the source mutates it in place:
`html_tags` tracking and the `chunk_index` increment) and the new value of
`current_text`. -/
def add_text_to_current_chunk (st : ParserState) (current_text new_text : String)
    (current_metadata : Metadata) (static : StaticMetadata) (element : Option Node) :
    Except String (ParserState × Metadata × String) :=
  if new_text = "" then .ok (st, current_metadata, current_text)
  else
    let tag_info : Option TagInfo := element.map (fun e =>
      ⟨e.nname, e.classes, e.attr "id", new_text.length, none⟩)
    let m := match tag_info with
      | some t => { current_metadata with html_tags := current_metadata.html_tags ++ [t] }
      | none => current_metadata
    let combined_text :=
      if current_text ≠ "" then current_text ++ "\n" ++ new_text else new_text
    if should_create_new_chunk st.max_chunk_size current_text new_text then
      if current_text ≠ "" then do
        let st' ← save_chunk st current_text m static
        let m' := { m with
          chunk_index := m.chunk_index.map (· + 1)
          html_tags := match tag_info with | some t => [t] | none => [] }
        .ok (st', m', new_text)
      else .ok (st, m, new_text)
    else .ok (st, m, combined_text)

/-! ## Link and history sub-extraction -/

/-- The dict returned by `parse_internal_link` (lines 627–649). -/
structure LinkInfo where
  pathname : Option String
  hash : Option String
  record_id : Option String
  full_link : String
deriving Repr, DecidableEq

/-- `parse_internal_link` (lines 627–649). -/
def parse_internal_link (link_str : String) : LinkInfo :=
  let pathname := (reSearch pat_pathname link_str).bind (fun caps => capGet caps 1)
  let hash_val := (reSearch pat_hash link_str).bind (fun caps => capGet caps 1)
  let record_id := pathname.map (fun p => (pySplitOn p "/").getLastD "")
  ⟨pathname, hash_val, record_id, link_str⟩

/-- `parse_internal_hierarchy_ref` (lines 651–677).  Note that when `jd_ref`
starts with `Article` but the article regex fails, the function falls off the
`if` chain and returns `None`. -/
def parse_internal_hierarchy_ref (link_str : String) : Option String :=
  match (reSearch pat_jd_hash link_str).bind (fun caps => capGet caps 1) with
  | none => none
  | some g =>
    let jd_ref := pyReplace g "JD_" ""
    if pyStartsWith jd_ref "Article" then
      match (reMatchStart pat_article_ref jd_ref).bind (fun caps => capGet caps 1) with
      | some num => some ("Article " ++ num)
      | none => none
    else if (reMatchStart pat_appendix_sec jd_ref).isSome then
      some ("Section " ++ jd_ref)
    else if (reMatchStart pat_bare_sec jd_ref).isSome then
      some ("Section " ++ jd_ref)
    else if pyStartsWith jd_ref "Appendix" then
      some jd_ref
    else
      some jd_ref

/-- `_process_internal_links` (lines 531–547): for each raw link, append a
`Reference` iff the parsed link has a truthy hash; `reference_string` falls
back to the record id when the hierarchy ref is `None` or empty. -/
def process_internal_links (internal_links : List String) (metadata : Metadata) :
    Metadata :=
  internal_links.foldl (fun m link =>
    let link_info := parse_internal_link link
    let ref_string := parse_internal_hierarchy_ref link
    match link_info.hash with
    | some h =>
      if h ≠ "" then
        let reference : Reference :=
          ⟨h,
           (match ref_string with
            | some r => if r ≠ "" then some r else link_info.record_id
            | none => link_info.record_id),
           link_info.record_id⟩
        { m with references := m.references ++ [reference] }
      else m
    | none => m) metadata

/-- `div_history_extract` (lines 679–711): over every descendant
`div.History`, extract `Added by …` and `Amended by …` ordinance numbers and
`see …` clauses, extending the three lists. -/
def div_history_extract (element : Node) : HistoryData :=
  let history_divs := element.findAll (fun d => d.nname = "div" && "History" ∈ d.classes)
  history_divs.foldl (fun hd history_div =>
    let history_text := history_div.getTextStrip
    let hd := match (reSearch pat_added history_text).bind (fun caps => capGet caps 1) with
      | some added_text => { hd with added_by := hd.added_by ++ reFindAll pat_ord added_text }
      | none => hd
    let hd := match (reSearch pat_amended history_text).bind (fun caps => capGet caps 1) with
      | some amended_text =>
        { hd with amended_by := hd.amended_by ++ reFindAll pat_ord amended_text }
      | none => hd
    { hd with see_also := hd.see_also ++ reFindAll pat_see history_text }) emptyHistory

/-- `div_links_extract_all` (lines 713–762). -/
def div_links_extract_all (element : Node) : LinkBuckets :=
  let internal_links := (element.findAll (fun d => d.nname = "Link" || d.nname = "link")).filterMap
    (fun l => let to_attr := l.attr "to"; if to_attr ≠ "" then some to_attr else none)
  let external_links := (element.findAll (fun d => d.nname = "a" && "Web" ∈ d.classes)).filterMap
    (fun a => let href := a.attr "href"
              if href ≠ "" then some (⟨href, a.getTextStrip⟩ : ExtLink) else none)
  let intercode_links := (element.findAll (fun d => d.nname = "intercodelink")).filterMap
    (fun ic => let did := ic.attr "destinationid"
               if did ≠ "" then some (⟨did, ic.getTextStrip⟩ : InterLink) else none)
  let image_links := (element.findAll (fun d => d.nname = "img")).filterMap
    (fun img => let src := img.attr "src"
                if src ≠ "" then
                  some (⟨src, img.attr "alt", img.attr "width", img.attr "height"⟩ : ImgLink)
                else none)
  ⟨internal_links, external_links, intercode_links, image_links⟩

/-- `process_metadata_links` (lines 166–183): extend the four link buckets,
resolve references, then *assign* (not extend) `history_data` when the
element's own extraction has any non-empty list. -/
def process_metadata_links (element : Node) (current_metadata : Metadata) : Metadata :=
  let all_links := div_links_extract_all element
  let m := { current_metadata with all_links :=
    ⟨current_metadata.all_links.internal_links ++ all_links.internal_links,
     current_metadata.all_links.external_links ++ all_links.external_links,
     current_metadata.all_links.intercode_links ++ all_links.intercode_links,
     current_metadata.all_links.image_links ++ all_links.image_links⟩ }
  let m := process_internal_links all_links.internal_links m
  let history_data := div_history_extract element
  if history_data.added_by ≠ [] || history_data.amended_by ≠ [] ||
      history_data.see_also ≠ [] then
    { m with history_data := history_data }
  else m

/-- `process_new_ordinance_links` (lines 238–248). -/
def process_new_ordinance_links (element : Node) (text_content : String)
    (current_metadata : Metadata) : Metadata :=
  let class_name := String.intercalate " " element.classes
  if strContains class_name "NewOrd" || strContains (pyLower text_content) "new ordinance" then
    let all_links := div_links_extract_all element
    let m := all_links.internal_links.foldl (fun m link =>
      if strContains link "NewOrd" || strContains (pyLower link) "new" then
        { m with new_ordinance_links := m.new_ordinance_links ++ [link] }
      else m) current_metadata
    { m with all_links := { m.all_links with
        internal_links := m.all_links.internal_links ++ all_links.internal_links
        external_links := m.all_links.external_links ++ all_links.external_links } }
  else current_metadata

/-- `process_footnote` (lines 250–263): the marker and text of the first
`td.marker` / `td.foot-text` cells, when both exist. -/
def process_footnote (footnote_element : Node) : Option (String × String) :=
  let marker_cell := footnote_element.findFirst (fun d => d.nname = "td" && "marker" ∈ d.classes)
  let text_cell := footnote_element.findFirst (fun d => d.nname = "td" && "foot-text" ∈ d.classes)
  match marker_cell, text_cell with
  | some mc, some tc => some (mc.getTextStrip, tc.getTextStrip)
  | _, _ => none

/-! ## Structural-boundary extraction (`_extract_structural_data`) -/

/-- The skip check of the structural text walk (lines 572–579): any strict
ancestor (below the content div) named `annotationdrawer` or `a`. -/
def sdSkipChain : List String → Bool
  | [] => false
  | nm :: rest => nm = "annotationdrawer" || nm = "a" || sdSkipChain rest

mutual
/-- One descendant's contribution to the structural element text
(lines 567–583): stripped text with a trailing space unless under an
`annotationdrawer` or `a` ancestor. -/
def sdVisit (chain : List String) : Node → String
  | .text s =>
    let t := pyStrip s
    if t ≠ "" && !sdSkipChain chain then t ++ " " else ""
  | .elem nm _ _ cs => sdVisitList (nm :: chain) cs
def sdVisitList (chain : List String) : NodeList → String
  | .nil => ""
  | .cons n rest => sdVisit chain n ++ sdVisitList chain rest
end

/-- The `element_text` of `_extract_structural_data` over a content div. -/
def structural_text (content_div : Node) : String :=
  pyStrip (sdVisitList [] (match content_div with
    | .text _ => .nil
    | .elem _ _ _ cs => cs))

/-- What `_extract_structural_data` puts into its `data` dict: each field is
`none` when the corresponding key is absent.  `anchor` and `mainField` pair
the dict key with its value. -/
structure ExtractedData where
  anchor : Option (String × String) := none
  mainField : Option (String × String) := none
  article_number : Option String := none
  article_title : Option String := none
  section_number : Option String := none
deriving Repr, DecidableEq

/-- `_extract_structural_data` (lines 549–625).  The content div is the
first direct-child `div`, or the second one when the first holds an
`annotationdrawer` (or `None` when there is no second).  The `extractors`
dict of the entry is applied as the source's loop does: the `Article` entry
runs the article-number regex (group 2 = number, group 3 = title via the
lambda), the `Section` entry runs the section-number regex (group 1); an
`Article` entry with no extracted title defaults it to the element text. -/
def extract_structural_data (element : Node) (hier_config : HierarchyTag) :
    ExtractedData :=
  let cds := element.directChildDivs
  let content_div : Option Node :=
    match cds.head? with
    | none => none
    | some d =>
      if d.hasAnnotDrawer then
        if cds.length > 1 then cds[1]? else none
      else some d
  match content_div with
  | none => {}
  | some cd =>
    let element_text := structural_text cd
    let anchor_el := cd.findFirst (fun d => d.nname = "a" && strContains (d.attr "name") "JD_")
    let d0 : ExtractedData := {}
    let d1 := match anchor_el with
      | some a => { d0 with anchor := some (pyLower hier_config.type ++ "_anchor", a.attr "name") }
      | none => d0
    let d2 := match hier_config.fields.head? with
      | some f => { d1 with mainField := some (f, element_text) }
      | none => d1
    let d3 :=
      if hier_config.tag = "Article" then
        match reSearch pat_article_number element_text with
        | some caps =>
          { d2 with article_number := capGet caps 2, article_title := capGet caps 3 }
        | none => d2
      else if hier_config.tag = "Section" then
        match reSearch pat_sec_number element_text with
        | some caps => { d2 with section_number := capGet caps 1 }
        | none => d2
      else d2
    if hier_config.type = "Article" && d3.article_title = none then
      { d3 with article_title := some element_text }
    else d3

/-- Field assignment for the main structural field (`data[fields[0]] = text`,
then `current_metadata.update(extracted_data)`). -/
def set_field_value (m : Metadata) (f v : String) : Metadata :=
  if f = "chapter" then { m with chapter := some v }
  else if f = "article" then { m with article := some v }
  else if f = "article_number" then { m with article_number := some v }
  else if f = "article_title" then { m with article_title := some v }
  else if f = "division" then { m with division := some v }
  else if f = "section_title" then { m with section_title := some v }
  else if f = "section_number" then { m with section_number := some v }
  else if f = "subsection" then { m with subsection := some v }
  else m

/-- Assignment of a `*_anchor` key. -/
def set_anchor_field (m : Metadata) (f v : String) : Metadata :=
  if f = "chapter_anchor" then { m with chapter_anchor := some v }
  else if f = "article_anchor" then { m with article_anchor := some v }
  else if f = "division_anchor" then { m with division_anchor := some v }
  else if f = "section_anchor" then { m with section_anchor := some v }
  else if f = "subsection_anchor" then { m with subsection_anchor := some v }
  else m

/-- `current_metadata.update(extracted_data)` (line 416): write every key the
extraction produced. -/
def metadata_update (m : Metadata) (d : ExtractedData) : Metadata :=
  let m := match d.anchor with | some (f, v) => set_anchor_field m f v | none => m
  let m := match d.mainField with | some (f, v) => set_field_value m f v | none => m
  let m := match d.article_number with | some v => { m with article_number := some v } | none => m
  let m := match d.article_title with | some v => { m with article_title := some v } | none => m
  let m := match d.section_number with | some v => { m with section_number := some v } | none => m
  m

/-! ## The traversal (`parse`, lines 284–529) -/

/-- The loop state of `parse`: the parser object's mutable fields plus
`current_text` and `current_metadata`. -/
structure WalkState where
  ps : ParserState
  current_text : String
  current_metadata : Metadata
deriving Repr, DecidableEq

/-- The structural branch of the loop (lines 394–436): flush a non-empty
buffer (with a trailing newline ensured), reset the metadata at the matched
level, extract and merge the boundary's own data, set the section hash from
the anchor, and seed the buffer with the boundary's text. -/
def parse_step_structural (ws : WalkState) (element : Node) (text_content : String)
    (hier : HierarchyTag) : Except String WalkState := do
  let ws1 ←
    if ws.current_text ≠ "" then do
      let flushed :=
        if pyEndsWith ws.current_text "\n" then ws.current_text else ws.current_text ++ "\n"
      let ps' ← save_chunk ws.ps flushed ws.current_metadata static_metadata
      pure { ws with ps := ps', current_text := "" }
    else pure ws
  let current_level_index := hierarchy_tags.findIdx (fun h => h == hier)
  let m := reset_metadata_for_new_section ws1.current_metadata current_level_index
  let extracted := extract_structural_data element hier
  let m := metadata_update m extracted
  let m := match extracted.anchor with
    | some (_, v) => { m with hash := some ("#" ++ v) }
    | none => m
  if text_content ≠ "" then
    let tag_info : TagInfo :=
      ⟨element.nname, element.classes, element.attr "id", text_content.length, none⟩
    pure { ws1 with
      current_text := text_content
      current_metadata := { m with html_tags := m.html_tags ++ [tag_info] } }
  else
    pure { ws1 with current_metadata := m }

/-- The inner-div semantic-class bookkeeping of the content branch
(lines 443–453): record the inner content div's joined class string in
`div_classes` when new. -/
def content_div_classes (element : Node) (m : Metadata) : Metadata :=
  let cds := element.directChildDivs
  let inner_div : Option Node :=
    match cds.head? with
    | none => none
    | some d =>
      if d.hasAnnotDrawer then (if cds.length > 1 then cds[1]? else some d)
      else some d
  match inner_div with
  | some idiv =>
    if idiv.classes ≠ [] then
      let div_class := String.intercalate " " idiv.classes
      if div_class ≠ "" && div_class ∉ m.div_classes then
        { m with div_classes := m.div_classes ++ [div_class] }
      else m
    else m
  | none => m

/-- The `Normal-Level` content branch of the loop (lines 439–464). -/
def parse_step_content (ws : WalkState) (element : Node) (text_content : String) :
    Except String WalkState :=
  if text_content = "" then .ok ws
  else do
    let m := content_div_classes element ws.current_metadata
    let m := process_metadata_links element m
    let (ps', m', ct') ← add_text_to_current_chunk ws.ps ws.current_text text_content m
      static_metadata (some element)
    let element_id := element.attr "id"
    let m'' := if element_id ≠ "" then { m' with section_id := some element_id } else m'
    .ok ⟨ps', ct', m''⟩

/-- The footnote-table branch of the loop (lines 465–473). -/
def parse_step_footnote (ws : WalkState) (element : Node) : Except String WalkState :=
  match process_footnote element with
  | some (marker, ftext) => do
    let footnote_text := "\n\n[Footnote " ++ marker ++ "] " ++ ftext
    let (ps', m', ct') ← add_text_to_current_chunk ws.ps ws.current_text footnote_text
      ws.current_metadata static_metadata (some element)
    .ok ⟨ps', ct', m'⟩
  | none => .ok ws

/-- The catch-all rbox branch of the loop (lines 474–500): append the text,
then extract New-Ordinance links.  (The `unhandled_text` debug report is not
modelled.) -/
def parse_step_other (ws : WalkState) (element : Node) (text_content class_name : String) :
    Except String WalkState :=
  if text_content ≠ "" && strContains class_name "rbox" then do
    let (ps', m', ct') ← add_text_to_current_chunk ws.ps ws.current_text text_content
      ws.current_metadata static_metadata (some element)
    let m'' := process_new_ordinance_links element text_content m'
    .ok ⟨ps', ct', m''⟩
  else .ok ws

/-- One iteration of the loop over `elements` (lines 379–500). -/
def parse_step (ws : WalkState) (element : Node) : Except String WalkState :=
  let class_name := String.intercalate " " element.classes
  let text_content := extract_text_from_element element
  match is_structural_element element hierarchy_tags with
  | some hier => parse_step_structural ws element text_content hier
  | none =>
    if strContains class_name "Normal-Level" then
      parse_step_content ws element text_content
    else if element.nname = "table" && strContains class_name "footnote" then
      parse_step_footnote ws element
    else
      parse_step_other ws element text_content class_name

/-- The fresh walk state of `parse` (lines 317–335 plus the parser object's
constructor). -/
def initialWalkState (max_chunk_size : Nat) : WalkState :=
  ⟨⟨max_chunk_size, [], 1⟩, "", initialMetadata⟩

/-- The loop of `parse` over an element list, with the final-buffer flush
(lines 379–504), returning `self.chunks`. -/
def parseElems (max_chunk_size : Nat) (elements : List Node) :
    Except String (List Chunk) := do
  let ws ← elements.foldlM parse_step (initialWalkState max_chunk_size)
  let ws ←
    if ws.current_text ≠ "" then do
      let ps' ← save_chunk ws.ps ws.current_text ws.current_metadata static_metadata
      pure { ws with ps := ps' }
    else pure ws
  pure ws.ps.chunks

/-- `has_target_class` (lines 295–304): `div`s with an `rbox`-containing
class, `table`s with the `footnote` class. -/
def has_target_class (tag : Node) : Bool :=
  if tag.nname = "div" then tag.classes.any (fun c => strContains c "rbox")
  else if tag.nname = "table" then "footnote" ∈ tag.classes
  else false

/-- `soup.find_all(has_target_class)` (line 307): matching elements in
document order, nested matches included. -/
def findAllTarget (soup : Node) : List Node := soup.findAll has_target_class

/-- `parse` (lines 284–529) over an already-parsed DOM. -/
def parse (max_chunk_size : Nat) (soup : Node) : Except String (List Chunk) :=
  parseElems max_chunk_size (findAllTarget soup)

/-! ## Claim-side definitions

These definitions do not embed source code; they state the comparison side
of relational claims (following the spec's words) and drive the embedded
functions the way `parse` drives them. -/

/-- Modelled from the spec's words (§4.2): the catch-all rbox branch with
link sub-extraction merged into the buckets *before* the text is appended —
the ordering the spec asserts for "every call to append associated with a
link-bearing node".  Compare with `parse_step_other`, where the source
appends first. -/
def parse_step_other_specorder (ws : WalkState) (element : Node)
    (text_content class_name : String) : Except String WalkState :=
  if text_content ≠ "" && strContains class_name "rbox" then do
    let m := process_new_ordinance_links element text_content ws.current_metadata
    let (ps', m', ct') ← add_text_to_current_chunk ws.ps ws.current_text text_content m
      static_metadata (some element)
    .ok ⟨ps', ct', m'⟩
  else .ok ws

/-- The loop with the spec-ordered catch-all branch substituted (everything
else as in `parse_step`). -/
def parse_step_specorder (ws : WalkState) (element : Node) : Except String WalkState :=
  let class_name := String.intercalate " " element.classes
  let text_content := extract_text_from_element element
  match is_structural_element element hierarchy_tags with
  | some hier => parse_step_structural ws element text_content hier
  | none =>
    if strContains class_name "Normal-Level" then
      parse_step_content ws element text_content
    else if element.nname = "table" && strContains class_name "footnote" then
      parse_step_footnote ws element
    else
      parse_step_other_specorder ws element text_content class_name

/-- `parseElems` with the spec-ordered catch-all branch. -/
def parseElems_specorder (max_chunk_size : Nat) (elements : List Node) :
    Except String (List Chunk) := do
  let ws ← elements.foldlM parse_step_specorder (initialWalkState max_chunk_size)
  let ws ←
    if ws.current_text ≠ "" then do
      let ps' ← save_chunk ws.ps ws.current_text ws.current_metadata static_metadata
      pure { ws with ps := ps' }
    else pure ws
  pure ws.ps.chunks

/-- One section's pass through the accumulator, exactly as `parse` drives it:
the buffer starts with the boundary element's seed text and `chunk_index`
freshly reset, each content text goes through `add_text_to_current_chunk`,
and a non-empty remaining buffer is flushed by `_save_chunk` (as the next
boundary at lines 394–401, or the end of input at lines 502–504, does). -/
def section_run (max_chunk_size : Nat) (seed : String) (m0 : Metadata)
    (texts : List String) : Except String (ParserState × Metadata × String) := do
  let r ← texts.foldlM
    (fun (acc : ParserState × Metadata × String) t =>
      add_text_to_current_chunk acc.1 acc.2.2 t acc.2.1 static_metadata none)
    (⟨max_chunk_size, [], 1⟩, m0, seed)
  if r.2.2 ≠ "" then do
    let st' ← save_chunk r.1 r.2.2 r.2.1 static_metadata
    pure (st', r.2.1, "")
  else pure r

/-- Whitespace normalization, following the claim's words: collapse
whitespace runs and trim, i.e. the whitespace-separated words joined by
single spaces. -/
def normalize_ws (s : String) : String :=
  String.intercalate " " ((s.toList.splitOnP pyIsSpace).map String.mk |>.filter (fun w => w ≠ ""))

/-- Following the spec's words: the "visible text of the source document" —
every text node of the document, in document order, joined by spaces (images
and external URLs, which the extractor inlines, play no part here). -/
def visible_text_spec (soup : Node) : String :=
  normalize_ws (String.intercalate " " (soup.descendants.filterMap (fun d =>
    match d with
    | .text s => some s
    | _ => none)))

/-- Chunk contents joined by single newlines (the separator
`add_text_to_current_chunk` writes between blocks inside one chunk). -/
def joinNL : List String → String
  | [] => ""
  | [x] => x
  | x :: xs => x ++ "\n" ++ joinNL xs

/-! ## Theorems -/

set_option maxRecDepth 4000

deriving instance DecidableEq for Except

/-! ### C6: history extraction of the worked example -/

/-- A content element whose `History` div holds the claim's history text. -/
def c6_element : Node :=
  .elem "div" ["rbox", "Normal-Level"] []
    (.cons (.elem "div" ["History"] []
      (.cons (.text "Added by Ord. 123-20; Amended by Ord. 45-21") .nil)) .nil)

/-- C6: extracting history from a history container whose text is
"Added by Ord. 123-20; Amended by Ord. 45-21" yields
`added_by = ["123-20"]` and `amended_by = ["45-21"]`. -/
theorem C6_history_example :
    div_history_extract c6_element =
      { added_by := ["123-20"], amended_by := ["45-21"], see_also := [] } := by
  decide

/-! ### C5: internal-link reference resolution -/

/-- An internal-link descriptor with no `hash:` component. -/
def c5_nohash_link : String := "pathname: '/codes/san_francisco/latest/0-0-0-18'"

/-- An element carrying only the hash-less internal link. -/
def c5_nohash_element : Node :=
  .elem "div" ["rbox", "Normal-Level"] []
    (.cons (.elem "link" [] [("to", c5_nohash_link)] .nil)
      (.cons (.text "See the code.") .nil))

/-- C5: `hash: '#JD_Article5'` resolves to "Article 5" and
`hash: '#JD_18.5'` to "Section 18.5"; a link whose parse finds no hash
appends no `Reference` (the metadata is returned unchanged), and a raw
hash-less link is still retained in the internal-links bucket. -/
theorem C5_reference_resolution :
    parse_internal_hierarchy_ref
        "pathname: '/codes/sf/0-0-0-5', hash: '#JD_Article5'" = some "Article 5"
    ∧ parse_internal_hierarchy_ref
        "pathname: '/codes/sf/0-0-0-18', hash: '#JD_18.5'" = some "Section 18.5"
    ∧ (∀ (link : String) (m : Metadata), (parse_internal_link link).hash = none →
        process_internal_links [link] m = m)
    ∧ (process_metadata_links c5_nohash_element initialMetadata).all_links.internal_links
        = [c5_nohash_link]
    ∧ (process_metadata_links c5_nohash_element initialMetadata).references = [] := by
  refine ⟨by decide, by decide, ?_, by decide, by decide⟩
  intro link m h
  simp [process_internal_links, h]

/-! ### C7: emission fails loudly without a chunk index -/

/-- C7: `_save_chunk` on metadata whose `chunk_index` key is missing raises
(returns `Except.error` with the source's message) and in particular never
returns a new state — no chunk is appended and no default index is
substituted. -/
theorem C7_missing_index_fails (st : ParserState) (text : String) (m : Metadata)
    (static : StaticMetadata) (h : m.chunk_index = none) :
    save_chunk st text m static =
      .error ("chunk_index missing from metadata for doc_id: " ++ compute_doc_id m)
    ∧ ∀ st' : ParserState, save_chunk st text m static ≠ .ok st' := by
  constructor
  · simp [save_chunk, h]
  · intro st'
    simp [save_chunk, h]

/-- Witness for C7 at a concrete input: metadata whose `chunk_index` is the
missing key. -/
theorem C7_witness :
    save_chunk ⟨2000, [], 1⟩ "some text" { initialMetadata with chunk_index := none }
        static_metadata =
      .error ("chunk_index missing from metadata for doc_id: "
        ++ compute_doc_id { initialMetadata with chunk_index := none }) :=
  (C7_missing_index_fails ⟨2000, [], 1⟩ "some text"
    { initialMetadata with chunk_index := none } static_metadata rfl).1

/-! ### C2: the split rule of the accumulator -/

/-- Helper: the exact behaviour of `add_text_to_current_chunk` on a non-empty
buffer and non-empty block: a split (emitting exactly the old buffer) iff the
buffered length plus the block length exceeds the maximum, a newline-joined
concatenation otherwise. -/
theorem add_text_split_cases (st : ParserState) (ct nt : String) (m : Metadata)
    (el : Option Node) (ci : Nat) (hci : m.chunk_index = some ci) (hnt : nt ≠ "")
    (hct : ct ≠ "") :
    (ct.length + nt.length > st.max_chunk_size →
      ∃ ps' m', add_text_to_current_chunk st ct nt m static_metadata el = .ok (ps', m', nt) ∧
        (∃ c, ps'.chunks = st.chunks ++ [c] ∧ c.content = ct ∧ c.character_count = ct.length) ∧
        m'.chunk_index = some (ci + 1)) ∧
    (ct.length + nt.length ≤ st.max_chunk_size →
      ∃ m', add_text_to_current_chunk st ct nt m static_metadata el =
          .ok (st, m', ct ++ "\n" ++ nt) ∧ m'.chunk_index = some ci) := by
  cases el with
  | none =>
    constructor
    · intro hgt
      simp only [add_text_to_current_chunk, should_create_new_chunk, String.length_append,
        if_neg hnt, Option.map_none', decide_eq_true_eq]
      rw [if_pos hgt, if_pos hct]
      simp only [save_chunk, hci]
      exact ⟨_, _, rfl, ⟨_, rfl, rfl, rfl⟩, by simp [hci]⟩
    · intro hle
      simp only [add_text_to_current_chunk, should_create_new_chunk, String.length_append,
        if_neg hnt, Option.map_none', decide_eq_true_eq]
      rw [if_neg (Nat.not_lt.mpr hle), if_pos hct]
      exact ⟨_, rfl, hci⟩
  | some e =>
    constructor
    · intro hgt
      simp only [add_text_to_current_chunk, should_create_new_chunk, String.length_append,
        if_neg hnt, Option.map_some', decide_eq_true_eq]
      rw [if_pos hgt, if_pos hct]
      simp only [save_chunk, hci]
      exact ⟨_, _, rfl, ⟨_, rfl, rfl, rfl⟩, by simp [hci]⟩
    · intro hle
      simp only [add_text_to_current_chunk, should_create_new_chunk, String.length_append,
        if_neg hnt, Option.map_some', decide_eq_true_eq]
      rw [if_neg (Nat.not_lt.mpr hle), if_pos hct]
      exact ⟨_, rfl, hci⟩

/-- The 1900-character buffer of the claim's scenario. -/
def c2_buffer : String := String.mk (List.replicate 1900 'a')

/-- The 50- and 200-character appended blocks of the claim's scenario. -/
def c2_block50 : String := String.mk (List.replicate 50 'b')

def c2_block200 : String := String.mk (List.replicate 200 'b')

theorem c2_buffer_length : c2_buffer.length = 1900 := by
  simp only [c2_buffer, String.length, List.length_replicate]

theorem c2_block50_length : c2_block50.length = 50 := by
  simp only [c2_block50, String.length, List.length_replicate]

theorem c2_block200_length : c2_block200.length = 200 := by
  simp only [c2_block200, String.length, List.length_replicate]

theorem c2_buffer_ne : c2_buffer ≠ "" := by
  intro h
  have := congrArg String.length h
  rw [c2_buffer_length] at this
  simp at this

theorem c2_block50_ne : c2_block50 ≠ "" := by
  intro h
  have := congrArg String.length h
  rw [c2_block50_length] at this
  simp at this

theorem c2_block200_ne : c2_block200 ≠ "" := by
  intro h
  have := congrArg String.length h
  rw [c2_block200_length] at this
  simp at this

theorem newline_length : ("\n" : String).length = 1 := rfl

/-- C2 counterexample: with max chunk size 2000 and a 1900-character buffer,
appending a 50-character block triggers no split — but the buffered text then
has length 1951, not 1950: `add_text_to_current_chunk` concatenates with a
separating newline that the claim's arithmetic omits. -/
theorem C2_counterexample :
    (∃ m', add_text_to_current_chunk ⟨2000, [], 1⟩ c2_buffer c2_block50 initialMetadata
        static_metadata none = .ok (⟨2000, [], 1⟩, m', c2_buffer ++ "\n" ++ c2_block50))
    ∧ (c2_buffer ++ "\n" ++ c2_block50).length = 1951
    ∧ (c2_buffer ++ "\n" ++ c2_block50).length ≠ 1950 := by
  refine ⟨?_, ?_, ?_⟩
  · obtain ⟨m', heq, -⟩ :=
      (add_text_split_cases ⟨2000, [], 1⟩ c2_buffer c2_block50 initialMetadata none 1 rfl
        c2_block50_ne c2_buffer_ne).2
      (by rw [c2_buffer_length, c2_block50_length]; norm_num)
    exact ⟨m', heq⟩
  · simp [String.length_append, c2_buffer_length, c2_block50_length, newline_length]
  · simp [String.length_append, c2_buffer_length, c2_block50_length, newline_length]

/-- C2 (amended): for a non-empty buffer, `add_text_to_current_chunk` emits a
chunk iff buffered length plus new length exceeds the maximum (the separator
newline is not counted by the test); a split emits exactly the old buffer as
a chunk and starts the fresh buffer with the new block; a non-split
concatenates with a newline, so the 1900+50 append leaves a 1951-character
buffer, while the 1900+200 append emits the 1900-character buffer as a chunk
and keeps the 200-character block whole as the new buffer. -/
theorem C2_split_rule :
    (∀ (st : ParserState) (ct nt : String) (m : Metadata) (el : Option Node) (ci : Nat),
      m.chunk_index = some ci → nt ≠ "" → ct ≠ "" →
      ((ct.length + nt.length > st.max_chunk_size →
        ∃ ps' m', add_text_to_current_chunk st ct nt m static_metadata el = .ok (ps', m', nt) ∧
          (∃ c, ps'.chunks = st.chunks ++ [c] ∧ c.content = ct ∧ c.character_count = ct.length) ∧
          m'.chunk_index = some (ci + 1)) ∧
      (ct.length + nt.length ≤ st.max_chunk_size →
        ∃ m', add_text_to_current_chunk st ct nt m static_metadata el =
            .ok (st, m', ct ++ "\n" ++ nt) ∧ m'.chunk_index = some ci)))
    ∧ (∃ m', add_text_to_current_chunk ⟨2000, [], 1⟩ c2_buffer c2_block50 initialMetadata
        static_metadata none = .ok (⟨2000, [], 1⟩, m', c2_buffer ++ "\n" ++ c2_block50)
        ∧ (c2_buffer ++ "\n" ++ c2_block50).length = 1951)
    ∧ (∃ ps' m', add_text_to_current_chunk ⟨2000, [], 1⟩ c2_buffer c2_block200 initialMetadata
        static_metadata none = .ok (ps', m', c2_block200)
        ∧ ps'.chunks.map Chunk.content = [c2_buffer]) := by
  refine ⟨fun st ct nt m el ci hci hnt hct => add_text_split_cases st ct nt m el ci hci hnt hct,
    ?_, ?_⟩
  · obtain ⟨m', heq, -⟩ :=
      (add_text_split_cases ⟨2000, [], 1⟩ c2_buffer c2_block50 initialMetadata none 1 rfl
        c2_block50_ne c2_buffer_ne).2
      (by rw [c2_buffer_length, c2_block50_length]; norm_num)
    exact ⟨m', heq, by simp [String.length_append, c2_buffer_length, c2_block50_length, newline_length]⟩
  · obtain ⟨ps', m', heq, ⟨c, hchunks, hcontent, -⟩, -⟩ :=
      (add_text_split_cases ⟨2000, [], 1⟩ c2_buffer c2_block200 initialMetadata none 1 rfl
        c2_block200_ne c2_buffer_ne).1
      (by rw [c2_buffer_length, c2_block200_length]; norm_num)
    exact ⟨ps', m', heq, by simp [hchunks, hcontent]⟩

/-! ### C10: oversized blocks are kept whole -/

/-- A content element whose extracted text (5 characters) exceeds the
3-character maximum used in the concrete part of C10. -/
def c10_element : Node :=
  .elem "div" ["rbox", "Normal-Level"] [] (.cons (.text "abcde") .nil)

/-- C10: a single block longer than `max_chunk_size` is never subdivided:
with an empty buffer nothing is emitted and the block becomes the buffer;
with a non-empty buffer only the old buffer is emitted and the block becomes
the new buffer.  Hence (concrete part) an emitted chunk's `character_count`
can exceed the maximum: a 5-character content block parsed with maximum 3 is
emitted as a single 5-character chunk. -/
theorem C10_oversized_blocks :
    (∀ (st : ParserState) (ct nt : String) (m : Metadata) (el : Option Node) (ci : Nat),
      m.chunk_index = some ci → nt.length > st.max_chunk_size →
      ((ct = "" → ∃ m', add_text_to_current_chunk st ct nt m static_metadata el
          = .ok (st, m', nt)) ∧
       (ct ≠ "" → ∃ ps' m', add_text_to_current_chunk st ct nt m static_metadata el
          = .ok (ps', m', nt) ∧
          ∃ c, ps'.chunks = st.chunks ++ [c] ∧ c.content = ct)))
    ∧ (parseElems 3 [c10_element]).map (fun cs => cs.map (fun c => (c.content, c.character_count)))
        = .ok [("abcde", 5)]
    ∧ 5 > 3 := by
  refine ⟨?_, by decide, by decide⟩
  intro st ct nt m el ci hci hgt
  have hnt : nt ≠ "" := by
    intro h
    rw [h] at hgt
    simp at hgt
  constructor
  · intro hct
    subst hct
    cases el with
    | none =>
      simp only [add_text_to_current_chunk, should_create_new_chunk, String.length_append,
        if_neg hnt, Option.map_none', decide_eq_true_eq]
      rw [if_pos (by simpa using hgt), if_neg (by simp)]
      exact ⟨_, rfl⟩
    | some e =>
      simp only [add_text_to_current_chunk, should_create_new_chunk, String.length_append,
        if_neg hnt, Option.map_some', decide_eq_true_eq]
      rw [if_pos (by simpa using hgt), if_neg (by simp)]
      exact ⟨_, rfl⟩
  · intro hct
    obtain ⟨ps', m', heq, ⟨c, hchunks, hcontent, -⟩, -⟩ :=
      (add_text_split_cases st ct nt m el ci hci hnt hct).1 (by omega)
    exact ⟨ps', m', heq, c, hchunks, hcontent⟩

/-! ### C1: the hierarchy reset invariant -/

/-- C1: `_reset_metadata_for_new_section` at level index `i` leaves every
metadata field owned by hierarchy levels at index `j < i` unchanged and
resets to `None` every field owned by levels at index `j ≥ i` — in
particular a new Division boundary (index 2) preserves `chapter` and
`article` but clears the Section and Subsection fields, and a new Article
boundary (index 1) clears Division/Section/Subsection while keeping
`chapter`. -/
theorem C1_reset_invariant (m : Metadata) (i j : Nat) (hi : i < hierarchy_tags.length)
    (hj : j < hierarchy_tags.length) :
    (j < i → ∀ f ∈ (hierarchy_tags.get ⟨j, hj⟩).fields,
      get_hier_field (reset_metadata_for_new_section m i) f = get_hier_field m f)
    ∧ (i ≤ j → ∀ f ∈ (hierarchy_tags.get ⟨j, hj⟩).fields,
      get_hier_field (reset_metadata_for_new_section m i) f = none) := by
  have hi5 : i < 5 := by simpa [hierarchy_tags] using hi
  have hj5 : j < 5 := by simpa [hierarchy_tags] using hj
  interval_cases i <;> interval_cases j <;>
    refine ⟨fun h f hf => ?_, fun h f hf => ?_⟩ <;>
    first
      | exact absurd h (by omega)
      | (simp only [hierarchy_tags] at hf; fin_cases hf <;> rfl)

/-- The metadata of the claim's example: Chapter "5" and Article "II" set,
together with Division/Section/Subsection values, before a boundary. -/
def c1_metadata : Metadata :=
  { initialMetadata with
    chapter := some "5", article := some "II", division := some "DIVISION 3",
    section_title := some "SEC. 9. X.", section_number := some "9",
    subsection := some "(a)" }

/-- Witness for C1 at the claim's Division example (level index 2): the
chapter survives the reset and the subsection is cleared. -/
theorem C1_witness :
    get_hier_field (reset_metadata_for_new_section c1_metadata 2) "chapter"
      = get_hier_field c1_metadata "chapter"
    ∧ get_hier_field (reset_metadata_for_new_section c1_metadata 2) "subsection" = none :=
  ⟨(C1_reset_invariant c1_metadata 2 0 (by decide) (by decide)).1 (by decide) "chapter"
      (by decide),
   (C1_reset_invariant c1_metadata 2 4 (by decide) (by decide)).2 (by decide) "subsection"
      (by decide)⟩

/-! ### C4: the history bucket across content nodes -/

/-- Helper: `_process_internal_links` only ever touches `references`; the
history bucket passes through unchanged. -/
theorem process_internal_links_history (links : List String) (m : Metadata) :
    (process_internal_links links m).history_data = m.history_data := by
  induction links generalizing m with
  | nil => rfl
  | cons l ls ih =>
    simp only [process_internal_links, List.foldl_cons] at ih ⊢
    rw [ih]
    split
    · split <;> rfl
    · rfl

/-- A content element whose `History` div holds the given text. -/
def c4_hist_element (h : String) : Node :=
  .elem "div" ["rbox", "Normal-Level"] []
    (.cons (.elem "div" ["History"] [] (.cons (.text h) .nil)) .nil)

/-- C4 counterexample: after a content node with "Added by Ord. 111-11" the
bucket holds `added_by = ["111-11"]`, but processing a second content node
with "Amended by Ord. 22-22" leaves `added_by = []` — the earlier match is
discarded, so the bucket after the second node does not contain what it
contained before as a sub-collection. -/
theorem C4_counterexample :
    (process_metadata_links (c4_hist_element "Added by Ord. 111-11")
        initialMetadata).history_data.added_by = ["111-11"]
    ∧ (process_metadata_links (c4_hist_element "Amended by Ord. 22-22")
        (process_metadata_links (c4_hist_element "Added by Ord. 111-11")
          initialMetadata)).history_data.added_by = [] := by
  constructor
  · decide
  · decide

/-- C4 (amended): across content nodes the history bucket is *replaced*, not
appended to — `process_metadata_links` overwrites the bucket with the node's
own extraction whenever that extraction is non-empty and leaves the bucket
unchanged otherwise; matches accumulate only across the several `History`
divs of a single element (concrete conjunct). -/
theorem C4_history_replacement :
    (∀ (e : Node) (m : Metadata),
      (process_metadata_links e m).history_data =
        (if div_history_extract e = emptyHistory then m.history_data
         else div_history_extract e))
    ∧ div_history_extract
        (.elem "div" ["rbox", "Normal-Level"] []
          (.cons (.elem "div" ["History"] [] (.cons (.text "Added by Ord. 1-1") .nil))
            (.cons (.elem "div" ["History"] [] (.cons (.text "Added by Ord. 2-2") .nil))
              .nil)))
      = { added_by := ["1-1", "2-2"], amended_by := [], see_also := [] } := by
  refine ⟨?_, by decide⟩
  intro e m
  simp only [process_metadata_links]
  split
  · rename_i hcond
    have hne : div_history_extract e ≠ emptyHistory := by
      intro hemp
      rw [hemp] at hcond
      simp [emptyHistory] at hcond
    rw [if_neg hne]
  · rename_i hcond
    have heq : div_history_extract e = emptyHistory := by
      rcases hd : div_history_extract e with ⟨a, b, c⟩
      rw [hd] at hcond
      simp only [Bool.or_eq_true, decide_eq_true_eq, not_or] at hcond
      simp only [ne_eq, not_not] at hcond
      simp [emptyHistory, hcond.1.1, hcond.1.2, hcond.2]
    rw [if_pos heq, process_internal_links_history]

/-! ### C3: chunk ids and section-local chunk indices -/

/-- A structural `Division` boundary element with a bare text child (no
anchor, as plenty of real boundaries have). -/
def c3_div_element (t : String) : Node :=
  .elem "div" ["rbox", "Division"] [] (.cons (.text t) .nil)

/-- The three sibling Division boundaries of the C3 counterexample. -/
def c3_doc : List Node :=
  [c3_div_element "DIVISION ONE", c3_div_element "DIVISION TWO",
   c3_div_element "DIVISION THREE"]

/-- C3 counterexample: a run over three sibling Division boundaries emits
three chunks that all carry `chunk_id = "sf_municipal_code_1"` — `doc_id` is
built only from `chapter`, `article` and `section_id`, and the per-section
index restarts at 1, so chunks of different sections can share a chunk id. -/
theorem C3_counterexample :
    (parseElems 2000 c3_doc).map (fun cs => cs.map Chunk.chunk_id)
      = .ok ["sf_municipal_code_1", "sf_municipal_code_1", "sf_municipal_code_1"] := by
  decide

/-- Helper: one `add_text_to_current_chunk` call either leaves the parser
state alone or appends exactly one chunk carrying the current index and
advances the index by one. -/
theorem add_text_index_step (st : ParserState) (ct nt : String) (m : Metadata)
    (el : Option Node) (ci : Nat) (hci : m.chunk_index = some ci) :
    ∃ ps' m' ct', add_text_to_current_chunk st ct nt m static_metadata el = .ok (ps', m', ct') ∧
      ((ps' = st ∧ m'.chunk_index = some ci) ∨
       (∃ c, ps'.chunks = st.chunks ++ [c] ∧ c.chunk_index = ci ∧
         m'.chunk_index = some (ci + 1) ∧ ps'.max_chunk_size = st.max_chunk_size)) := by
  by_cases hnt : nt = ""
  · exact ⟨st, m, ct, by simp [add_text_to_current_chunk, hnt], Or.inl ⟨rfl, hci⟩⟩
  · cases el with
    | none =>
      simp only [add_text_to_current_chunk, if_neg hnt, Option.map_none']
      split
      · split
        · simp only [save_chunk, hci]
          exact ⟨_, _, _, rfl, Or.inr ⟨_, rfl, rfl, by simp [hci], rfl⟩⟩
        · exact ⟨_, _, _, rfl, Or.inl ⟨rfl, hci⟩⟩
      · exact ⟨_, _, _, rfl, Or.inl ⟨rfl, hci⟩⟩
    | some e =>
      simp only [add_text_to_current_chunk, if_neg hnt, Option.map_some']
      split
      · split
        · simp only [save_chunk, hci]
          exact ⟨_, _, _, rfl, Or.inr ⟨_, rfl, rfl, by simp [hci], rfl⟩⟩
        · exact ⟨_, _, _, rfl, Or.inl ⟨rfl, hci⟩⟩
      · exact ⟨_, _, _, rfl, Or.inl ⟨rfl, hci⟩⟩

/-- Helper: bind of an `ok` value in the `Except` monad. -/
theorem except_ok_bind {α β : Type} (a : α) (f : α → Except String β) :
    (Except.ok a >>= f : Except String β) = f a := rfl

/-- Helper: `_save_chunk` succeeds on metadata carrying a chunk index, and
appends exactly one chunk with that index. -/
theorem save_chunk_ok (st : ParserState) (text : String) (m : Metadata)
    (static : StaticMetadata) (ci : Nat) (hci : m.chunk_index = some ci) :
    ∃ c : Chunk, save_chunk st text m static =
        .ok { st with chunks := st.chunks ++ [c], chunk_number := st.chunk_number + 1 }
      ∧ c.chunk_index = ci ∧ c.content = text ∧ c.metadata = m
      ∧ c.character_count = text.length := by
  simp only [save_chunk, hci]
  exact ⟨_, rfl, rfl, rfl, rfl, rfl⟩

theorem range'_extend (len : Nat) :
    List.range' 1 len ++ [len + 1] = List.range' 1 (len + 1) := by
  have hc := @List.range'_concat 1 1 len
  simp only [Nat.one_mul] at hc
  rw [hc]
  simp [Nat.add_comm]

/-- Helper: the accumulator fold keeps `chunk_index` one past the number of
chunks emitted so far, and the emitted indices are `1, 2, …`. -/
theorem section_fold_invariant (texts : List String) (st : ParserState) (m : Metadata)
    (ct : String) (hci : m.chunk_index = some (st.chunks.length + 1))
    (hidx : st.chunks.map Chunk.chunk_index = List.range' 1 st.chunks.length) :
    ∃ st' m' ct',
      texts.foldlM (fun (acc : ParserState × Metadata × String) t =>
        add_text_to_current_chunk acc.1 acc.2.2 t acc.2.1 static_metadata none) (st, m, ct)
        = .ok (st', m', ct') ∧
      m'.chunk_index = some (st'.chunks.length + 1) ∧
      st'.chunks.map Chunk.chunk_index = List.range' 1 st'.chunks.length := by
  induction texts generalizing st m ct with
  | nil => exact ⟨st, m, ct, rfl, hci, hidx⟩
  | cons t ts ih =>
    obtain ⟨ps', m', ct', heq, hcase⟩ :=
      add_text_index_step st ct t m none (st.chunks.length + 1) hci
    rcases hcase with ⟨hst, hciN⟩ | ⟨c, hchunks, hcidx, hciN, -⟩
    · obtain ⟨st', m'', ct'', heq2, h1, h2⟩ :=
        ih ps' m' ct' (by rw [hst]; exact hciN) (by rw [hst]; exact hidx)
      exact ⟨st', m'', ct'', by simp only [List.foldlM_cons, heq]; exact heq2, h1, h2⟩
    · have hlen : ps'.chunks.length = st.chunks.length + 1 := by
        rw [hchunks]; simp
      have hidx' : ps'.chunks.map Chunk.chunk_index = List.range' 1 ps'.chunks.length := by
        rw [hchunks]
        simp only [List.map_append, List.map_cons, List.map_nil, hidx, hcidx,
          List.length_append, List.length_singleton]
        rw [range'_extend]
      obtain ⟨st', m'', ct'', heq2, h1, h2⟩ := ih ps' m' ct' (by rw [hlen]; exact hciN) hidx'
      exact ⟨st', m'', ct'', by simp only [List.foldlM_cons, heq]; exact heq2, h1, h2⟩

/-- C3 (amended): within one section — the buffer seeded at a boundary with
`chunk_index` reset to 1, content texts appended, the remainder flushed at
the next boundary or end of input — the emitted chunks carry the contiguous
indices `1, 2, 3, …`; but chunk ids are *not* globally unique across
sections (see the counterexample). -/
theorem C3_section_contiguity (max_chunk_size : Nat) (seed : String) (m0 : Metadata)
    (texts : List String) (h : m0.chunk_index = some 1) :
    ∃ st' m' ct', section_run max_chunk_size seed m0 texts = .ok (st', m', ct') ∧
      st'.chunks.map Chunk.chunk_index = List.range' 1 st'.chunks.length := by
  obtain ⟨st1, m1, ct1, heq, hci1, hidx1⟩ :=
    section_fold_invariant texts ⟨max_chunk_size, [], 1⟩ m0 seed (by simpa using h)
      (by simp)
  by_cases hct : ct1 = ""
  · subst hct
    refine ⟨st1, m1, "", ?_, hidx1⟩
    simp only [section_run, heq, except_ok_bind]
    rw [if_neg (by simp)]
    rfl
  · obtain ⟨c, hsave, hcix, -, -, -⟩ :=
      save_chunk_ok st1 ct1 m1 static_metadata (st1.chunks.length + 1) hci1
    refine ⟨{ st1 with chunks := st1.chunks ++ [c], chunk_number := st1.chunk_number + 1 },
      m1, "", ?_, ?_⟩
    · simp only [section_run, heq, except_ok_bind]
      rw [if_pos hct, hsave]
      rfl
    · simp only [List.map_append, List.map_cons, List.map_nil, hidx1, hcix,
        List.length_append, List.length_singleton]
      exact range'_extend st1.chunks.length

/-- Witness for C3's amended theorem at a concrete section: a seed text and
two content texts under a tiny maximum. -/
theorem C3_witness :
    ∃ st' m' ct', section_run 3 "SEED" initialMetadata ["aa", "bb"] = .ok (st', m', ct') ∧
      st'.chunks.map Chunk.chunk_index = List.range' 1 st'.chunks.length :=
  C3_section_contiguity 3 "SEED" initialMetadata ["aa", "bb"] rfl

/-! ### C8: extraction order around appends -/

/-- Helper: `_process_internal_links` leaves the link buckets alone. -/
theorem process_internal_links_all_links (links : List String) (m : Metadata) :
    (process_internal_links links m).all_links = m.all_links := by
  induction links generalizing m with
  | nil => rfl
  | cons l ls ih =>
    simp only [process_internal_links, List.foldl_cons] at ih ⊢
    rw [ih]
    split
    · split <;> rfl
    · rfl

/-- Helper: `_process_internal_links` leaves `chunk_index` alone. -/
theorem process_internal_links_chunk_index (links : List String) (m : Metadata) :
    (process_internal_links links m).chunk_index = m.chunk_index := by
  induction links generalizing m with
  | nil => rfl
  | cons l ls ih =>
    simp only [process_internal_links, List.foldl_cons] at ih ⊢
    rw [ih]
    split
    · split <;> rfl
    · rfl

/-- Helper: `process_metadata_links` extends the internal bucket with exactly
the element's own extracted links. -/
theorem process_metadata_links_internal (e : Node) (m : Metadata) :
    (process_metadata_links e m).all_links.internal_links =
      m.all_links.internal_links ++ (div_links_extract_all e).internal_links := by
  simp only [process_metadata_links]
  split
  · rw [process_internal_links_all_links]
  · rw [process_internal_links_all_links]

/-- Helper: `process_metadata_links` leaves `chunk_index` alone. -/
theorem process_metadata_links_chunk_index (e : Node) (m : Metadata) :
    (process_metadata_links e m).chunk_index = m.chunk_index := by
  simp only [process_metadata_links]
  split
  · rw [process_internal_links_chunk_index]
  · rw [process_internal_links_chunk_index]

/-- Helper: the div-classes bookkeeping leaves the link buckets alone. -/
theorem content_div_classes_all_links (e : Node) (m : Metadata) :
    (content_div_classes e m).all_links = m.all_links := by
  simp only [content_div_classes]
  split
  · split
    · split <;> rfl
    · rfl
  · rfl

/-- Helper: the div-classes bookkeeping leaves `chunk_index` alone. -/
theorem content_div_classes_chunk_index (e : Node) (m : Metadata) :
    (content_div_classes e m).chunk_index = m.chunk_index := by
  simp only [content_div_classes]
  split
  · split
    · split <;> rfl
    · rfl
  · rfl

/-- Helper: every chunk one `add_text_to_current_chunk` call emits snapshots
the link buckets of the metadata the call was given. -/
theorem add_text_emits (st : ParserState) (ct nt : String) (m : Metadata)
    (el : Option Node) (ci : Nat) (hci : m.chunk_index = some ci) :
    ∃ ps' m' ct' em, add_text_to_current_chunk st ct nt m static_metadata el
        = .ok (ps', m', ct') ∧
      ps'.chunks = st.chunks ++ em ∧
      ∀ c ∈ em, c.metadata.all_links = m.all_links := by
  by_cases hnt : nt = ""
  · exact ⟨st, m, ct, [], by simp [add_text_to_current_chunk, hnt], by simp, by simp⟩
  · cases el with
    | none =>
      simp only [add_text_to_current_chunk, if_neg hnt, Option.map_none']
      split
      · split
        · simp only [save_chunk, hci]
          exact ⟨_, _, _, [_], rfl, rfl, by simp⟩
        · exact ⟨_, _, _, [], rfl, by simp, by simp⟩
      · exact ⟨_, _, _, [], rfl, by simp, by simp⟩
    | some e =>
      simp only [add_text_to_current_chunk, if_neg hnt, Option.map_some']
      split
      · split
        · simp only [save_chunk, hci]
          exact ⟨_, _, _, [_], rfl, rfl, by simp⟩
        · exact ⟨_, _, _, [], rfl, by simp, by simp⟩
      · exact ⟨_, _, _, [], rfl, by simp, by simp⟩

/-- The internal link of the C8 counterexample's New-Ordinance element. -/
def c8_link : String :=
  "pathname: '/codes/san_francisco/latest/0-0-0-99', hash: '#JD_NewOrd99'"

/-- A Division boundary (seeding the buffer) followed by a link-bearing
New-Ordinance rbox whose append overflows a 10-character maximum. -/
def c8_doc : List Node :=
  [.elem "div" ["rbox", "Division"] [] (.cons (.text "DIVISION ONE") .nil),
   .elem "div" ["rbox", "NewOrd"] []
     (.cons (.elem "link" [] [("to", c8_link)] .nil)
       (.cons (.text "New ordinance notice text") .nil))]

/-- C8 counterexample: for the catch-all rbox branch (New Ordinance notices)
the source appends the text *before* merging the node's links
(lines 486–492), so the chunk emitted by the split during that very append
lacks the node's link; under the spec's merge-before-append ordering
(`parseElems_specorder`) the same run gives that chunk the link.  The two
orderings are observably different, so the claimed ordering does not hold of
the code. -/
theorem C8_counterexample :
    (parseElems 10 c8_doc).map (fun cs => cs.map (fun c => c.metadata.all_links.internal_links))
      = .ok [[], [c8_link]]
    ∧ (parseElems_specorder 10 c8_doc).map
        (fun cs => cs.map (fun c => c.metadata.all_links.internal_links))
      = .ok [[c8_link], [c8_link]] := by
  constructor
  · decide
  · decide

/-- C8 (amended): for `Normal-Level` content nodes the sub-extraction *is*
merged before the text is appended: every chunk emitted while processing
such a node (by a split during its append) already carries every internal
link extracted from that node in its link metadata.  (For the catch-all
rbox branch the merge instead happens right after the append — see the
counterexample.) -/
theorem C8_content_merge_before_append (ws : WalkState) (e : Node) (ci : Nat)
    (hs : is_structural_element e hierarchy_tags = none)
    (hnl : strContains (String.intercalate " " e.classes) "Normal-Level" = true)
    (hci : ws.current_metadata.chunk_index = some ci) :
    ∃ ws', parse_step ws e = .ok ws' ∧
      ∃ em, ws'.ps.chunks = ws.ps.chunks ++ em ∧
        ∀ c ∈ em, ∀ l ∈ (div_links_extract_all e).internal_links,
          l ∈ c.metadata.all_links.internal_links := by
  simp only [parse_step, hs]
  rw [if_pos hnl]
  by_cases htext : extract_text_from_element e = ""
  · refine ⟨ws, ?_, [], by simp, by simp⟩
    simp [parse_step_content, htext]
  · simp only [parse_step_content, if_neg htext]
    have hci2 : (process_metadata_links e
        (content_div_classes e ws.current_metadata)).chunk_index = some ci := by
      rw [process_metadata_links_chunk_index, content_div_classes_chunk_index, hci]
    obtain ⟨ps', m', ct', em, heq, hchunks, hmeta⟩ :=
      add_text_emits ws.ps ws.current_text (extract_text_from_element e)
        (process_metadata_links e (content_div_classes e ws.current_metadata)) (some e) ci hci2
    refine ⟨⟨ps', ct',
        if e.attr "id" ≠ "" then { m' with section_id := some (e.attr "id") } else m'⟩,
      ?_, em, hchunks, ?_⟩
    · simp only [heq, except_ok_bind]
    · intro c hc l hl
      rw [hmeta c hc, process_metadata_links_internal]
      exact List.mem_append_right _ hl

/-- Witness for C8's amended theorem: a content node carrying an internal
link, appended onto a seeded buffer that its append overflows; the theorem
applies with the initial metadata's chunk index. -/
theorem C8_witness :
    ∃ ws', parse_step ⟨⟨10, [], 1⟩, "DIVISION ONE", initialMetadata⟩
        (.elem "div" ["rbox", "Normal-Level"] []
          (.cons (.elem "link" [] [("to", c8_link)] .nil)
            (.cons (.text "Content bearing a link") .nil))) = .ok ws' ∧
      ∃ em, ws'.ps.chunks = ([] : List Chunk) ++ em ∧
        ∀ c ∈ em, ∀ l ∈ (div_links_extract_all
            (.elem "div" ["rbox", "Normal-Level"] []
              (.cons (.elem "link" [] [("to", c8_link)] .nil)
                (.cons (.text "Content bearing a link") .nil)))).internal_links,
          l ∈ c.metadata.all_links.internal_links :=
  C8_content_merge_before_append ⟨⟨10, [], 1⟩, "DIVISION ONE", initialMetadata⟩
    (.elem "div" ["rbox", "Normal-Level"] []
      (.cons (.elem "link" [] [("to", c8_link)] .nil)
        (.cons (.text "Content bearing a link") .nil))) 1 (by decide) (by decide) rfl

/-! ### C9: the round-trip property -/

/-- A document whose only visible text sits in a plain `p` element — not an
`rbox` div, so `find_all` never selects it. -/
def c9_p_doc : Node :=
  .elem "body" [] [] (.cons (.elem "p" [] [] (.cons (.text "hello world") .nil)) .nil)

/-- A plain rbox content div with a single text child. -/
def c9_content (t : String) : Node :=
  .elem "div" ["rbox", "Normal-Level"] [] (.cons (.text t) .nil)

/-- Two content divs whose second append splits under a 3-character maximum. -/
def c9_glue_doc : Node :=
  .elem "body" [] [] (.cons (c9_content "aa") (.cons (c9_content "bb") .nil))

/-- C9 counterexample: (1) visible text outside rbox divs is dropped — a
document whose only text lives in a `p` emits no chunks at all; (2) even for
rbox-only text, plainly concatenating the chunk contents glues the last word
of one chunk to the first word of the next ("aabb"), so the whitespace-
normalized concatenation differs from the normalized visible text
("aa bb").  The round-trip property as claimed fails on both counts. -/
theorem C9_counterexample :
    (parse 2000 c9_p_doc = .ok []
      ∧ normalize_ws (String.join (([] : List Chunk).map Chunk.content)) = ""
      ∧ visible_text_spec c9_p_doc = "hello world"
      ∧ ("" : String) ≠ "hello world")
    ∧ ((parse 3 c9_glue_doc).map (fun cs => normalize_ws (String.join (cs.map Chunk.content)))
        = .ok "aabb"
      ∧ visible_text_spec c9_glue_doc = "aa bb"
      ∧ ("aabb" : String) ≠ "aa bb") := by
  refine ⟨⟨by decide, by decide, by decide, by decide⟩, by decide, by decide, by decide⟩

/-- The chunk-buffer contents still pending emission: emitted chunk contents
plus the non-empty buffer. -/
def pieces (chunks : List Chunk) (buf : String) : List String :=
  chunks.map Chunk.content ++ (if buf = "" then [] else [buf])

/-- A content element with no structural class, no links, no history and no
inner div: the walker treats it as pure text. -/
def plain_content_elem (e : Node) : Bool :=
  decide (is_structural_element e hierarchy_tags = none)
  && strContains (String.intercalate " " e.classes) "Normal-Level"
  && decide (div_links_extract_all e = emptyLinks)
  && decide (div_history_extract e = emptyHistory)
  && decide (e.directChildDivs = [])

theorem joinNL_cons_ne (x : String) (xs : List String) (h : xs ≠ []) :
    joinNL (x :: xs) = x ++ "\n" ++ joinNL xs := by
  cases xs with
  | nil => exact absurd rfl h
  | cons z zs => rfl

theorem joinNL_concat (xs : List String) (y : String) :
    joinNL (xs ++ [y]) = if xs = [] then y else joinNL xs ++ "\n" ++ y := by
  induction xs with
  | nil => simp [joinNL]
  | cons x xs ih =>
    rw [if_neg (by simp)]
    cases xs with
    | nil => rfl
    | cons z zs =>
      rw [List.cons_append, joinNL_cons_ne x ((z :: zs) ++ [y]) (by simp),
        joinNL_cons_ne x (z :: zs) (by simp), ih, if_neg (by simp)]
      simp only [String.append_assoc]

theorem string_append_ne_left (a b : String) (h : a ≠ "") : a ++ b ≠ "" := by
  intro heq
  apply h
  cases a with
  | mk da =>
    cases b with
    | mk db =>
      have hd : da ++ db = [] := congrArg String.data heq
      have hda : da = [] := (List.append_eq_nil.mp hd).1
      rw [hda]

theorem joinNL_snoc_congr (xs ys : List String) (t : String)
    (hj : joinNL xs = joinNL ys) (he : xs = [] ↔ ys = []) :
    joinNL (xs ++ [t]) = joinNL (ys ++ [t]) := by
  rw [joinNL_concat, joinNL_concat]
  by_cases hx : xs = []
  · rw [if_pos hx, if_pos (he.mp hx)]
  · rw [if_neg hx, if_neg (fun hy => hx (he.mpr hy)), hj]

/-- Helper: on an element with no links and no history,
`process_metadata_links` is the identity. -/
theorem process_metadata_links_noop (e : Node) (m : Metadata)
    (hl : div_links_extract_all e = emptyLinks)
    (hh : div_history_extract e = emptyHistory) :
    process_metadata_links e m = m := by
  simp only [process_metadata_links, hl, hh, emptyLinks, emptyHistory]
  simp [process_internal_links]

/-- Helper: with no direct child div, the div-classes bookkeeping is the
identity. -/
theorem content_div_classes_noop (e : Node) (m : Metadata)
    (hd : e.directChildDivs = []) :
    content_div_classes e m = m := by
  simp [content_div_classes, hd]

/-- Helper: the three possible outcomes of one append of a non-empty block:
block becomes the buffer (empty buffer), newline-concatenation (fits), or a
split emitting exactly the old buffer. -/
theorem add_text_cases3 (st : ParserState) (ct nt : String) (m : Metadata)
    (el : Option Node) (ci : Nat) (hci : m.chunk_index = some ci) (hnt : nt ≠ "") :
    ∃ ps' m' ct', add_text_to_current_chunk st ct nt m static_metadata el = .ok (ps', m', ct') ∧
      (∃ ci', m'.chunk_index = some ci') ∧
      ((ps'.chunks = st.chunks ∧ ct' = nt ∧ ct = "") ∨
       (ps'.chunks = st.chunks ∧ ct' = ct ++ "\n" ++ nt ∧ ct ≠ "") ∨
       ((∃ c, ps'.chunks = st.chunks ++ [c] ∧ c.content = ct) ∧ ct' = nt ∧ ct ≠ "")) := by
  by_cases hct : ct = ""
  · subst hct
    cases el with
    | none =>
      simp only [add_text_to_current_chunk, if_neg hnt, Option.map_none']
      split
      · rw [if_neg (by simp)]
        exact ⟨_, _, _, rfl, ⟨ci, hci⟩, Or.inl ⟨rfl, rfl, by trivial⟩⟩
      · rw [if_neg (by simp)]
        exact ⟨_, _, _, rfl, ⟨ci, hci⟩, Or.inl ⟨rfl, rfl, by trivial⟩⟩
    | some e =>
      simp only [add_text_to_current_chunk, if_neg hnt, Option.map_some']
      split
      · rw [if_neg (by simp)]
        exact ⟨_, _, _, rfl, ⟨ci, hci⟩, Or.inl ⟨rfl, rfl, by trivial⟩⟩
      · rw [if_neg (by simp)]
        exact ⟨_, _, _, rfl, ⟨ci, hci⟩, Or.inl ⟨rfl, rfl, by trivial⟩⟩
  · cases el with
    | none =>
      simp only [add_text_to_current_chunk, if_neg hnt, Option.map_none']
      split
      · simp only [save_chunk, hci]
        exact ⟨_, _, _, rfl, ⟨ci + 1, by simp [hci]⟩, Or.inr (Or.inr ⟨⟨_, rfl, rfl⟩, rfl, hct⟩)⟩
      · exact ⟨_, _, _, rfl, ⟨ci, hci⟩, Or.inr (Or.inl ⟨rfl, rfl, hct⟩)⟩
    | some e =>
      simp only [add_text_to_current_chunk, if_neg hnt, Option.map_some']
      split
      · simp only [save_chunk, hci]
        exact ⟨_, _, _, rfl, ⟨ci + 1, by simp [hci]⟩, Or.inr (Or.inr ⟨⟨_, rfl, rfl⟩, rfl, hct⟩)⟩
      · exact ⟨_, _, _, rfl, ⟨ci, hci⟩, Or.inr (Or.inl ⟨rfl, rfl, hct⟩)⟩

theorem plain_content_elem_spec (e : Node) (hp : plain_content_elem e = true) :
    is_structural_element e hierarchy_tags = none
    ∧ strContains (String.intercalate " " e.classes) "Normal-Level" = true
    ∧ div_links_extract_all e = emptyLinks
    ∧ div_history_extract e = emptyHistory
    ∧ e.directChildDivs = [] := by
  simp only [plain_content_elem, Bool.and_eq_true, decide_eq_true_eq] at hp
  exact ⟨hp.1.1.1.1, hp.1.1.1.2, hp.1.1.2, hp.1.2, hp.2⟩

/-- Helper: on a plain content element the whole loop step is one append of
the element's extracted text. -/
theorem parse_step_plain (ws : WalkState) (e : Node) (ci : Nat)
    (hp : plain_content_elem e = true)
    (ht : extract_text_from_element e ≠ "")
    (hci : ws.current_metadata.chunk_index = some ci) :
    ∃ ws', parse_step ws e = .ok ws' ∧
      (∃ ci', ws'.current_metadata.chunk_index = some ci') ∧
      ((ws'.ps.chunks = ws.ps.chunks ∧ ws'.current_text = extract_text_from_element e
          ∧ ws.current_text = "") ∨
       (ws'.ps.chunks = ws.ps.chunks
          ∧ ws'.current_text = ws.current_text ++ "\n" ++ extract_text_from_element e
          ∧ ws.current_text ≠ "") ∨
       ((∃ c, ws'.ps.chunks = ws.ps.chunks ++ [c] ∧ c.content = ws.current_text)
          ∧ ws'.current_text = extract_text_from_element e ∧ ws.current_text ≠ "")) := by
  obtain ⟨hs, hnl, hlinks, hhist, hdivs⟩ := plain_content_elem_spec e hp
  simp only [parse_step, hs]
  rw [if_pos hnl]
  simp only [parse_step_content, if_neg ht]
  rw [content_div_classes_noop e ws.current_metadata hdivs,
    process_metadata_links_noop e ws.current_metadata hlinks hhist]
  obtain ⟨ps', m', ct', heq, hci', hcase⟩ :=
    add_text_cases3 ws.ps ws.current_text (extract_text_from_element e)
      ws.current_metadata (some e) ci hci ht
  refine ⟨⟨ps', ct',
      if e.attr "id" ≠ "" then { m' with section_id := some (e.attr "id") } else m'⟩,
    ?_, ?_, ?_⟩
  · simp only [heq, except_ok_bind]
  · obtain ⟨ci', hci'⟩ := hci'
    refine ⟨ci', ?_⟩
    split <;> simp [hci']
  · exact hcase

/-- Helper: the loop over plain content elements accumulates exactly the
extracted texts, newline-joined, into chunks-plus-buffer. -/
theorem content_fold (es : List Node) (ws : WalkState) (done : List String)
    (hplain : ∀ e ∈ es, plain_content_elem e = true)
    (htext : ∀ e ∈ es, extract_text_from_element e ≠ "")
    (hci : ∃ ci, ws.current_metadata.chunk_index = some ci)
    (hpc : ∀ x ∈ pieces ws.ps.chunks ws.current_text, x ≠ "")
    (hjoin : joinNL (pieces ws.ps.chunks ws.current_text) = joinNL done)
    (hempty : pieces ws.ps.chunks ws.current_text = [] ↔ done = []) :
    ∃ ws', es.foldlM parse_step ws = .ok ws' ∧
      (∃ ci', ws'.current_metadata.chunk_index = some ci') ∧
      (∀ x ∈ pieces ws'.ps.chunks ws'.current_text, x ≠ "") ∧
      joinNL (pieces ws'.ps.chunks ws'.current_text)
        = joinNL (done ++ es.map extract_text_from_element) ∧
      (pieces ws'.ps.chunks ws'.current_text = []
        ↔ done ++ es.map extract_text_from_element = []) := by
  induction es generalizing ws done with
  | nil =>
    exact ⟨ws, rfl, hci, hpc, by simpa using hjoin, by simpa using hempty⟩
  | cons e es ih =>
    obtain ⟨ci, hciv⟩ := hci
    have hpe := hplain e (by simp)
    have hte := htext e (by simp)
    obtain ⟨ws1, hstep, hci1, hcase⟩ := parse_step_plain ws e ci hpe hte hciv
    have key : (∀ x ∈ pieces ws1.ps.chunks ws1.current_text, x ≠ "") ∧
        joinNL (pieces ws1.ps.chunks ws1.current_text)
          = joinNL (done ++ [extract_text_from_element e]) ∧
        (pieces ws1.ps.chunks ws1.current_text = []
          ↔ done ++ [extract_text_from_element e] = []) := by
      rcases hcase with ⟨hch, hct', hbuf⟩ | ⟨hch, hct', hbuf⟩ | ⟨⟨c, hch, hcc⟩, hct', hbuf⟩
      · have hP1 : pieces ws1.ps.chunks ws1.current_text
            = pieces ws.ps.chunks ws.current_text ++ [extract_text_from_element e] := by
          simp [pieces, hch, hct', hbuf, if_neg hte]
        refine ⟨?_, ?_, ?_⟩
        · intro x hx
          rw [hP1] at hx
          rcases List.mem_append.mp hx with hx | hx
          · exact hpc x hx
          · simp only [List.mem_singleton] at hx
            rw [hx]; exact hte
        · rw [hP1]
          exact joinNL_snoc_congr _ _ _ hjoin hempty
        · rw [hP1]
          simp
      · have hbne : ws.current_text ++ "\n" ++ extract_text_from_element e ≠ "" :=
          string_append_ne_left _ _ (string_append_ne_left _ _ hbuf)
        have hP1 : pieces ws1.ps.chunks ws1.current_text
            = ws.ps.chunks.map Chunk.content
              ++ [ws.current_text ++ "\n" ++ extract_text_from_element e] := by
          simp [pieces, hch, hct', if_neg hbne]
        have hP0 : pieces ws.ps.chunks ws.current_text
            = ws.ps.chunks.map Chunk.content ++ [ws.current_text] := by
          simp [pieces, if_neg hbuf]
        refine ⟨?_, ?_, ?_⟩
        · intro x hx
          rw [hP1] at hx
          rcases List.mem_append.mp hx with hx | hx
          · exact hpc x (by rw [hP0]; exact List.mem_append_left _ hx)
          · simp only [List.mem_singleton] at hx
            rw [hx]; exact hbne
        · have step1 : joinNL (ws.ps.chunks.map Chunk.content
              ++ [ws.current_text ++ "\n" ++ extract_text_from_element e])
              = joinNL ((ws.ps.chunks.map Chunk.content ++ [ws.current_text])
                ++ [extract_text_from_element e]) := by
            rw [joinNL_concat, joinNL_concat, joinNL_concat]
            by_cases hm : ws.ps.chunks.map Chunk.content = []
            · rw [if_pos hm, if_neg (by simp), if_pos hm]
            · rw [if_neg hm, if_neg (by simp), if_neg hm]
              simp [String.append_assoc]
          rw [hP1, step1, ← hP0]
          exact joinNL_snoc_congr _ _ _ hjoin hempty
        · rw [hP1]
          simp
      · have hP1 : pieces ws1.ps.chunks ws1.current_text
            = pieces ws.ps.chunks ws.current_text ++ [extract_text_from_element e] := by
          simp [pieces, hch, hct', hcc, if_neg hbuf, if_neg hte]
        refine ⟨?_, ?_, ?_⟩
        · intro x hx
          rw [hP1] at hx
          rcases List.mem_append.mp hx with hx | hx
          · exact hpc x hx
          · simp only [List.mem_singleton] at hx
            rw [hx]; exact hte
        · rw [hP1]
          exact joinNL_snoc_congr _ _ _ hjoin hempty
        · rw [hP1]
          simp
    obtain ⟨hpc1, hjoin1, hempty1⟩ := key
    obtain ⟨ws', hfold, hciF, hpcF, hjoinF, hemptyF⟩ :=
      ih ws1 (done ++ [extract_text_from_element e])
        (fun e' he' => hplain e' (List.mem_cons_of_mem _ he'))
        (fun e' he' => htext e' (List.mem_cons_of_mem _ he'))
        hci1 hpc1 hjoin1 hempty1
    refine ⟨ws', ?_, hciF, hpcF, ?_, ?_⟩
    · simp only [List.foldlM_cons, hstep]
      exact hfold
    · rw [hjoinF]
      congr 1
      simp
    · rw [hemptyF]
      simp

/-- C9 (amended): the round trip holds in the newline-joined form for
documents whose selected elements are all plain rbox content divs with
non-empty text: the chunk contents, joined by single newlines, reproduce the
extracted texts joined by single newlines.  (In general the claim fails:
text outside rbox divs is dropped, and plain concatenation glues words — see
the counterexample.) -/
theorem C9_content_round_trip (maxsz : Nat) (es : List Node)
    (hplain : ∀ e ∈ es, plain_content_elem e = true)
    (htext : ∀ e ∈ es, extract_text_from_element e ≠ "") :
    ∃ cs, parseElems maxsz es = .ok cs ∧
      joinNL (cs.map Chunk.content) = joinNL (es.map extract_text_from_element) := by
  obtain ⟨ws', hfold, ⟨ci', hci'⟩, hpcF, hjoinF, hemptyF⟩ :=
    content_fold es (initialWalkState maxsz) [] hplain htext ⟨1, rfl⟩
      (by simp [pieces, initialWalkState]) (by simp [pieces, initialWalkState])
      (by simp [pieces, initialWalkState])
  by_cases hbuf : ws'.current_text = ""
  · refine ⟨ws'.ps.chunks, ?_, ?_⟩
    · simp only [parseElems, hfold, except_ok_bind]
      rw [if_neg (by simp [hbuf])]
      rfl
    · have hP : pieces ws'.ps.chunks ws'.current_text = ws'.ps.chunks.map Chunk.content := by
        simp [pieces, hbuf]
      rw [← hP, hjoinF]
      simp
  · obtain ⟨c, hsave, -, hcc, -, -⟩ :=
      save_chunk_ok ws'.ps ws'.current_text ws'.current_metadata static_metadata ci' hci'
    refine ⟨ws'.ps.chunks ++ [c], ?_, ?_⟩
    · simp only [parseElems, hfold, except_ok_bind]
      rw [if_pos hbuf, hsave]
      rfl
    · have h2 : (ws'.ps.chunks ++ [c]).map Chunk.content
          = pieces ws'.ps.chunks ws'.current_text := by
        simp [pieces, if_neg hbuf, hcc]
      rw [h2, hjoinF]
      simp

/-- Witness for C9's amended theorem: two plain content divs under a tiny
maximum (the second append splits). -/
theorem C9_witness :
    ∃ cs, parseElems 3 [c9_content "aa", c9_content "bb"] = .ok cs ∧
      joinNL (cs.map Chunk.content)
        = joinNL ([c9_content "aa", c9_content "bb"].map extract_text_from_element) :=
  C9_content_round_trip 3 [c9_content "aa", c9_content "bb"] (by decide) (by decide)
